import Mathlib

/-!
# Verification of the NOAA-satellite-capture SSTV codec specification

The repository's scripts invoke an SSTV (Robot36) codec as a black box; the
design document specifies that codec.  This development embeds the codec
components described by the design (FrequencyMap, VIS header codec,
LineEncoder, ToneSynthesizer, the decoder loop with sync search and
dead-reckoning, and the ImageAssembler) as executable Lean definitions, and
embeds the deterministic drawing/encoding steps of
`scripts/generate-sstv-test.py` directly from its source.  Theorems at the end
of the file settle the specification's claims against these definitions.
-/

namespace SSTV

/-- Modelled from the spec: a `Tone` is the atomic unit emitted/consumed by the
synthesizer/demodulator — a frequency in Hz and a duration (here in
milliseconds), both exact rationals. -/
structure Tone where
  freq : ℚ
  dur : ℚ
  deriving DecidableEq

instance : Inhabited Tone := ⟨⟨0, 0⟩⟩

/-- An RGB triple with natural-number channels (intended range 0..255). -/
structure RGB where
  r : ℕ
  g : ℕ
  b : ℕ
  deriving DecidableEq

/-- Modelled from the spec: an `Image` is a width×height grid of RGB triples;
the pixel grid is represented as a total function on coordinates `(x, y)`. -/
structure Image where
  width : ℕ
  height : ℕ
  pixel : ℕ → ℕ → RGB

/-- Clamp an integer into `[0, 255]` and return it as a natural number. -/
def clamp255 (z : ℤ) : ℕ := (max 0 (min 255 z)).toNat

/-- Quantize an exact rational value to a byte: round to the nearest integer,
then clamp into `[0, 255]`. -/
def quant (q : ℚ) : ℕ := clamp255 (round q)

/-! ## FrequencyMap (§4.1) -/

/-- Modelled from the spec: `toHz(intensity: 0..255) -> Hz = 1500 +
(intensity/255)*800`, linear.  (The FrequencyMap component is not part of the
repository's scripts; it is specified in §4.1.) -/
def toHz (intensity : ℕ) : ℚ := 1500 + ((intensity : ℚ) / 255) * 800

/-- Modelled from the spec: `toIntensity(hz) -> clamp(round((hz-1500)/800*255),
0, 255)`.  Out-of-range Hz values clamp rather than error. -/
def toIntensity (hz : ℚ) : ℕ := clamp255 (round ((hz - 1500) / 800 * 255))

/-! ## VIS Header Codec (§4.2) -/

/-- Modelled from the spec: tone classification tolerant to ±5% duration
jitter — an observed tone matches a nominal tone when it has the nominal
frequency and a duration within 5% of the nominal duration. -/
def toneMatches (t nominal : Tone) : Prop :=
  t.freq = nominal.freq
    ∧ nominal.dur * 95 / 100 ≤ t.dur ∧ t.dur ≤ nominal.dur * 105 / 100

instance (t nominal : Tone) : Decidable (toneMatches t nominal) := by
  unfold toneMatches
  infer_instance

/-- Leader tone: 300 ms @ 1900 Hz. -/
def visLeaderTone : Tone := ⟨1900, 300⟩

/-- Break tone: 10 ms @ 1200 Hz. -/
def visBreakTone : Tone := ⟨1200, 10⟩

/-- Start bit: 30 ms @ 1200 Hz. -/
def visStartTone : Tone := ⟨1200, 30⟩

/-- Stop bit: 30 ms @ 1200 Hz. -/
def visStopTone : Tone := ⟨1200, 30⟩

/-- Data bits: 30 ms each, 1300 Hz = 1 / 1100 Hz = 0. -/
def visBitTone (b : Bool) : Tone := ⟨if b then 1300 else 1100, 30⟩

/-- The 7 data bits of a VIS code, LSB first. -/
def visBits (code : ℕ) : List Bool := (List.range 7).map code.testBit

/-- Even parity over the data bits: the parity bit is set iff the number of
1-bits is odd, so data plus parity always hold an even number of ones. -/
def parityBit (bs : List Bool) : Bool := bs.foldl xor false

/-- Modelled from the spec: VIS header encode — leader 300 ms @ 1900 Hz →
break 10 ms @ 1200 Hz → leader → start bit 30 ms @ 1200 Hz → 7 data bits LSB
first → even-parity bit → stop bit 30 ms @ 1200 Hz. -/
def encodeVIS (code : ℕ) : List Tone :=
  [visLeaderTone, visBreakTone, visLeaderTone, visStartTone]
    ++ (visBits code).map visBitTone
    ++ [visBitTone (parityBit (visBits code)), visStopTone]

/-- The same header with the parity bit flipped (a corrupted transmission). -/
def encodeVISFlippedParity (code : ℕ) : List Tone :=
  [visLeaderTone, visBreakTone, visLeaderTone, visStartTone]
    ++ (visBits code).map visBitTone
    ++ [visBitTone (!parityBit (visBits code)), visStopTone]

/-- Bit classification during decode: frequency threshold at 1200 Hz. -/
def classifyBit (t : Tone) : Bool := 1200 < t.freq

/-- Numeric value of an LSB-first bit list. -/
def bitsVal (bs : List Bool) : ℕ := bs.foldr (fun b acc => 2 * acc + cond b 1 0) 0

/-- Modelled from the spec: the decode-stage error outcomes that are terminal
for a decode attempt.  `invalidHeader`: a header was found but its parity or
timing check failed.  `noSignalDetected`: no header was acquired within the
bounded initial scan window. -/
inductive DecodeError where
  | invalidHeader
  | noSignalDetected
  deriving DecidableEq

/-- Modelled from the spec: VIS header decode — mirrors the encode sequence,
checking the leader/break/start/stop tones (with the ±5% duration tolerance),
classifying the data and parity bits by the 1200 Hz threshold, and validating
even parity.  All-or-nothing: it either returns the complete validated 7-bit
code together with the remaining tone stream, or fails with `invalidHeader`. -/
def decodeVIS : List Tone → Except DecodeError (ℕ × List Tone)
  | l1 :: br :: l2 :: st :: b0 :: b1 :: b2 :: b3 :: b4 :: b5 :: b6 :: pb :: sp :: rest =>
    if toneMatches l1 visLeaderTone ∧ toneMatches br visBreakTone
        ∧ toneMatches l2 visLeaderTone ∧ toneMatches st visStartTone
        ∧ toneMatches sp visStopTone then
      if classifyBit pb = parityBit ([b0, b1, b2, b3, b4, b5, b6].map classifyBit) then
        Except.ok (bitsVal ([b0, b1, b2, b3, b4, b5, b6].map classifyBit), rest)
      else Except.error DecodeError.invalidHeader
    else Except.error DecodeError.invalidHeader
  | _ => Except.error DecodeError.invalidHeader

/-! ## Color conversion and LineEncoder (§4.3)

Standard YCrCb conversion with exact rational coefficients:
`Y = (299 R + 587 G + 114 B)/1000`, `Cr = 128 + (R − Y)·500/701`,
`Cb = 128 + (B − Y)·500/886` (the full-range BT.601 form whose inverse uses
the familiar factors 1.402 = 701/500 and 1.772 = 443/250). -/

/-- Exact luma of a pixel. -/
def lumaQ (p : RGB) : ℚ := (299 * p.r + 587 * p.g + 114 * p.b : ℚ) / 1000

/-- Exact Cr of a pixel. -/
def crQ (p : RGB) : ℚ := 128 + ((p.r : ℚ) - lumaQ p) * 500 / 701

/-- Exact Cb of a pixel. -/
def cbQ (p : RGB) : ℚ := 128 + ((p.b : ℚ) - lumaQ p) * 500 / 886

/-- Quantized luma byte of a pixel. -/
def luma8 (p : RGB) : ℕ := quant (lumaQ p)

/-- Quantized Cr byte of a pixel. -/
def cr8 (p : RGB) : ℕ := quant (crQ p)

/-- Quantized Cb byte of a pixel. -/
def cb8 (p : RGB) : ℕ := quant (cbQ p)

/-- Robot36 2:1 horizontal chroma subsampling: chroma sample `j` of a line is
the quantized average over the pixel pair `2j, 2j+1`; Cr on odd lines, Cb on
even lines.  Modelled from the spec: the spec fixes 160 chroma samples for 320
pixels and the odd→Cr / even→Cb parity, leaving the anti-aliasing choice open;
averaging the pixel pair is the natural reading. -/
def chromaVal (img : Image) (line j : ℕ) : ℕ :=
  if line % 2 = 1 then
    quant ((crQ (img.pixel (2 * j) line) + crQ (img.pixel (2 * j + 1) line)) / 2)
  else
    quant ((cbQ (img.pixel (2 * j) line) + cbQ (img.pixel (2 * j + 1) line)) / 2)

/-- Sync pulse: 9 ms @ 1200 Hz. -/
def syncTone : Tone := ⟨1200, 9⟩

/-- Porch: 3 ms @ 1500 Hz. -/
def porchTone : Tone := ⟨1500, 3⟩

/-- Separator: 4.5 ms @ 1500 Hz. -/
def sepTone : Tone := ⟨1500, 9 / 2⟩

/-- Per-tone duration of the Y sweep: 88 ms spread over 320 tones. -/
def lumaToneDur : ℚ := 88 / 320

/-- Per-tone duration of the chroma sweep: 44 ms spread over 160 tones. -/
def chromaToneDur : ℚ := 44 / 160

/-- The 320 luma tones of a scanline (FrequencyMap of each pixel's luma). -/
def lumaTones (img : Image) (line : ℕ) : List Tone :=
  (List.range 320).map fun x => ⟨toHz (luma8 (img.pixel x line)), lumaToneDur⟩

/-- The 160 chroma tones of a scanline (Cr on odd lines, Cb on even lines). -/
def chromaTones (img : Image) (line : ℕ) : List Tone :=
  (List.range 160).map fun j => ⟨toHz (chromaVal img line j), chromaToneDur⟩

/-- Modelled from the spec: LineEncoder — per scanline, in order: sync pulse
(9 ms @ 1200 Hz) → porch (3 ms @ 1500 Hz) → Y sweep (88 ms, 320 tones) →
separator (4.5 ms @ 1500 Hz) → chroma sweep (44 ms, 160 tones). -/
def encodeLine (img : Image) (line : ℕ) : List Tone :=
  syncTone :: porchTone :: (lumaTones img line ++ sepTone :: chromaTones img line)

/-- The fixed nominal line period: 9 + 3 + 88 + 4.5 + 44 = 148.5 ms. -/
def nominalLinePeriod : ℚ := 297 / 2

/-- A uniform gray 320×240 test image (the spec's concrete scenario). -/
def grayImage : Image := ⟨320, 240, fun _ _ => ⟨128, 128, 128⟩⟩

/-- Alternating red/blue vertical one-pixel columns: a valid 320×240 RGB
image whose chroma differs between the two pixels of every subsampling
pair. -/
def cexImage : Image :=
  ⟨320, 240, fun x _ => if x % 2 = 0 then ⟨255, 0, 0⟩ else ⟨0, 0, 255⟩⟩

/-! ## ToneSynthesizer (§4.4) -/

/-- Modelled from the spec: the number of samples of a tone at a given sample
rate — "the synthesizer later converts durations to sample counts"
(durations are in milliseconds, the rate in Hz). -/
def sampleCount (rate : ℚ) (t : Tone) : ℕ := (round (t.dur * rate / 1000)).toNat

/-- One phase-accumulator step, in cycle units: the phase advances by
`f / rate` cycles per sample and is kept in `[0, 1)` by taking the fractional
part (multiplying by `2π` gives the spec's radian form `mod 2π`). -/
def phaseStep (rate f : ℚ) (φ : ℚ) : ℚ := Int.fract (φ + f / rate)

/-- Modelled from the spec: the ToneSynthesizer's phase track.  For each tone
it appends `sampleCount` samples whose phases iterate the running accumulator
from its current value, and hands the advanced accumulator on to the next
tone — the phase is never reset at a tone boundary.  The emitted PCM sample
`n` is `amplitude · sin(2π · phase n)`; only the phase sequence matters for
the claims. -/
def synthPhases (rate : ℚ) : ℚ → List Tone → List ℚ
  | _, [] => []
  | φ, t :: ts =>
    (List.range (sampleCount rate t)).map (fun i => (phaseStep rate t.freq)^[i] φ)
      ++ synthPhases rate ((phaseStep rate t.freq)^[sampleCount rate t] φ) ts

/-- The frequency of the tone that owns sample index `n` of a tone sequence. -/
def freqAt (rate : ℚ) : List Tone → ℕ → ℚ
  | [], _ => 0
  | t :: ts, n =>
    if n < sampleCount rate t then t.freq else freqAt rate ts (n - sampleCount rate t)

/-- Total sample count of a tone sequence at a given rate. -/
def totalSamples (rate : ℚ) (ts : List Tone) : ℕ := (ts.map (sampleCount rate)).sum

/-! ## Decoder (§4.5–4.8)

The sample-level DSP of the decoder (the Goertzel-style resonator and the
moving-average smoothing) belongs to the missing external codec; the decoder
is modelled at tone granularity, the level at which the spec states its
decode behaviour (sync pulses, search windows, line slicing, dead-reckoning
and the state machine). -/

/-- Modelled from the spec: a decoded scanline — line index, 320 luma
intensities, 160 chroma intensities, and the parity flag (odd→Cr, even→Cb). -/
structure ScanLine where
  idx : ℕ
  y : ℕ → ℕ
  chroma : ℕ → ℕ
  parityOdd : Bool

/-- Modelled from the spec: the bounded initial scan window (in tones) within
which the VIS header's leading leader tone must be found. -/
def headerScanWindow : ℕ := 100

/-- Search for the header's 1900 Hz leader tone within the bounded initial
scan window; returns the stream suffix starting at the leader. -/
def findHeader : ℕ → List Tone → Option (List Tone)
  | _, [] => none
  | 0, _ => none
  | fuel + 1, t :: ts =>
    if toneMatches t visLeaderTone then some (t :: ts) else findHeader fuel ts

/-- Modelled from the spec: the per-line sync-search window — "a bounded
search window (several nominal line-periods)". -/
def syncSearchWindow : ℚ := 3 * nominalLinePeriod

/-- Scan the stream for the next sync pulse (1200 Hz, 9 ms within tolerance)
within a duration budget; returns the suffix starting at the sync pulse. -/
def findSyncAux : List Tone → ℚ → Option (List Tone)
  | [], _ => none
  | t :: ts, budget =>
    if budget < 0 then none
    else if toneMatches t syncTone then some (t :: ts)
    else findSyncAux ts (budget - t.dur)

/-- Drop tones totalling at least the given duration — the decoder's
dead-reckoning advance of its stream-position prediction. -/
def dropDuration : ℚ → List Tone → List Tone
  | _, [] => []
  | budget, t :: ts => if budget ≤ 0 then t :: ts else dropDuration (budget - t.dur) ts

/-- A stream fragment containing no tone classifiable as a sync pulse. -/
def SyncFree (ts : List Tone) : Prop := ∀ t ∈ ts, ¬toneMatches t syncTone

/-- Modelled from the spec: LineDecoder — given a stream suffix positioned at
a located sync pulse, checks the sync and porch tones, slices the 320-tone Y
window and the 160-tone chroma window around the separator, and produces a
populated ScanLine (inverse FrequencyMap per tone, out-of-range values
clamped, never errors) together with the remaining stream. -/
def parseLine (idx : ℕ) : List Tone → Option (ScanLine × List Tone)
  | s :: p :: rest =>
    if toneMatches s syncTone ∧ toneMatches p porchTone
        ∧ 481 ≤ rest.length ∧ toneMatches (rest.getD 320 default) sepTone then
      some (⟨idx,
        fun x => toIntensity ((rest.getD x default).freq),
        fun j => toIntensity ((rest.getD (321 + j) default).freq),
        idx % 2 == 1⟩,
        rest.drop 481)
    else none
  | _ => none

/-- Modelled from the spec: the per-frame decoding loop state — accumulated
lines (`none` = sync lost on that line), count of successfully synced lines,
current run of consecutive missed lines, the frame completeness flag, and
whether the decoder has entered the ABORTED state. -/
structure LoopState where
  acc : List (Option ScanLine)
  synced : ℕ
  consecMiss : ℕ
  complete : Bool
  aborted : Bool

/-- The loop state at header lock: an empty frame accumulator. -/
def initState : LoopState := ⟨[], 0, 0, true, false⟩

/-- Modelled from the spec: the configured number of consecutive line-periods
without valid sync after which the decoder aborts. -/
def abortThreshold : ℕ := 8

/-- The state change for a line whose sync pulse was not found: the line is
marked missing, the completeness flag is cleared, the consecutive-miss
counter is bumped, and the decoder enters ABORTED if the configured threshold
of consecutive line-periods without valid sync is reached. -/
def missState (st : LoopState) : LoopState :=
  ⟨st.acc ++ [none], st.synced, st.consecMiss + 1, false,
    decide (abortThreshold ≤ st.consecMiss + 1)⟩

/-- Modelled from the spec: the decoder's line loop.  Per line: search for the
sync pulse within the bounded window; on success decode the line and reset
the consecutive-miss counter; on failure mark the line missing and advance
the stream position by exactly one nominal line period (dead-reckoning).
ABORTED is entered on stream exhaustion or via `missState` when
`abortThreshold` consecutive lines had no valid sync; an aborted state is
returned as-is with whatever has been accumulated. -/
def decodeLinesAux : ℕ → ℕ → List Tone → LoopState → LoopState
  | 0, _, _, st => st
  | n + 1, idx, stream, st =>
    if st.aborted then st
    else if stream.isEmpty then ⟨st.acc, st.synced, st.consecMiss, false, true⟩
    else
      match findSyncAux stream syncSearchWindow with
      | some suffix =>
        match parseLine idx suffix with
        | some (sl, rest) =>
          decodeLinesAux n (idx + 1) rest
            ⟨st.acc ++ [some sl], st.synced + 1, 0, st.complete, false⟩
        | none =>
          decodeLinesAux n (idx + 1) (dropDuration nominalLinePeriod stream) (missState st)
      | none =>
        decodeLinesAux n (idx + 1) (dropDuration nominalLinePeriod stream) (missState st)

/-- The nearest successfully decoded line strictly before index `i`. -/
def prevSynced (lines : List (Option ScanLine)) (i : ℕ) : Option ScanLine :=
  ((lines.take i).reverse.filterMap id).head?

/-- The nearest successfully decoded line strictly after index `i`. -/
def nextSynced (lines : List (Option ScanLine)) (i : ℕ) : Option ScanLine :=
  ((lines.drop (i + 1)).filterMap id).head?

/-- Interpolated replacement line: the pointwise average of two lines. -/
def avgLine (i : ℕ) (a b : ScanLine) : ScanLine :=
  ⟨i, fun x => (a.y x + b.y x) / 2, fun j => (a.chroma j + b.chroma j) / 2, i % 2 == 1⟩

/-- Modelled from the spec: ImageAssembler line recovery — a line that was
never successfully synced is filled by interpolating from the vertically
adjacent synced lines (averaging the nearest synced neighbours, copying the
single neighbour at a frame edge, or a neutral gray line if nothing synced). -/
def interpLine (lines : List (Option ScanLine)) (i : ℕ) : ScanLine :=
  match lines.getD i none with
  | some sl => sl
  | none =>
    match prevSynced lines i, nextSynced lines i with
    | some a, some b => avgLine i a b
    | some a, none => ⟨i, a.y, a.chroma, i % 2 == 1⟩
    | none, some b => ⟨i, b.y, b.chroma, i % 2 == 1⟩
    | none, none => ⟨i, fun _ => 0, fun _ => 128, i % 2 == 1⟩

/-- Reconstructed exact red channel from quantized Y and Cr. -/
def reconR (y cr : ℕ) : ℚ := (y : ℚ) + ((cr : ℚ) - 128) * 701 / 500

/-- Reconstructed exact blue channel from quantized Y and Cb. -/
def reconB (y cb : ℕ) : ℚ := (y : ℚ) + ((cb : ℚ) - 128) * 443 / 250

/-- Reconstructed exact green channel from quantized Y, Cr and Cb. -/
def reconG (y cr cb : ℕ) : ℚ :=
  ((y : ℚ) - 299 / 1000 * reconR y cr - 114 / 1000 * reconB y cb) * 1000 / 587

/-- YCrCb → RGB conversion (the exact inverse of §4.3's conversion, with
final rounding and clamping into the byte range). -/
def rgbOfYcc (y cr cb : ℕ) : RGB :=
  ⟨quant (reconR y cr), quant (reconG y cr cb), quant (reconB y cb)⟩

/-- Modelled from the spec: ImageAssembler — each line pair shares one
Cr/Cb sample pair (the odd line of the pair supplies Cr, the even line Cb),
chroma is upsampled by pixel-pair sharing, and YCrCb is converted to RGB. -/
def assembleImage (lines : List (Option ScanLine)) : Image :=
  ⟨320, 240, fun x y =>
    rgbOfYcc ((interpLine lines y).y x)
      ((interpLine lines (2 * (y / 2) + 1)).chroma (x / 2))
      ((interpLine lines (2 * (y / 2))).chroma (x / 2))⟩

/-- Modelled from the spec: a decode result — the assembled image, the frame
completeness flag, the synced-line count, whether ABORTED was entered, and
the raw accumulated lines. -/
structure DecodeResult where
  image : Image
  complete : Bool
  syncedLines : ℕ
  abortedEarly : Bool
  lines : List (Option ScanLine)

/-- Finalize the loop state into a DecodeResult (240 expected lines). -/
def finalizeFrame (st : LoopState) : DecodeResult :=
  let padded := st.acc ++ List.replicate (240 - st.acc.length) none
  ⟨assembleImage padded, st.complete && (st.acc.length == 240), st.synced,
    st.aborted, padded⟩

/-- Modelled from the spec: top-level decode — find the header within the
bounded initial scan window (`NoSignalDetected` otherwise), decode and
validate the VIS header (`InvalidHeader` on parity/timing failure), then run
the 240-line decoding loop and assemble the frame. -/
def decode (tones : List Tone) : Except DecodeError DecodeResult :=
  match findHeader headerScanWindow tones with
  | none => Except.error DecodeError.noSignalDetected
  | some atHeader =>
    match decodeVIS atHeader with
    | Except.error e => Except.error e
    | Except.ok (_, body) =>
      Except.ok (finalizeFrame (decodeLinesAux 240 0 body initState))

/-- Number of populated (successfully synced) lines of a decode outcome,
zero for failures. -/
def populatedLines : Except DecodeError DecodeResult → ℕ
  | Except.error _ => 0
  | Except.ok res => res.syncedLines

/-- Modelled from the spec: the encode-stage errors (input validation only,
all terminal). -/
inductive EncodeError where
  | invalidImageDimensions
  | unsupportedPixelFormat
  deriving DecidableEq

/-- The Robot36 VIS mode code. -/
def visRobot36 : ℕ := 8

/-- The full encoded tone stream: VIS header then the 240 scanlines. -/
def encodeTones (img : Image) : List Tone :=
  encodeVIS visRobot36 ++ (List.range 240).flatMap (encodeLine img)

/-- Modelled from the spec: top-level encode — fails immediately with
`InvalidImageDimensions` (producing no partial audio output) unless the image
has the mode's fixed 320×240 size. -/
def encode (img : Image) : Except EncodeError (List Tone) :=
  if img.width = 320 ∧ img.height = 240 then Except.ok (encodeTones img)
  else Except.error EncodeError.invalidImageDimensions

end SSTV

/-! ## The test-signal generator script (`scripts/generate-sstv-test.py`)

These definitions embed the deterministic image-building steps of the script's
`main`: a black 320×256 background, seven color bars painted left to right,
and a black text box.  PIL's `ImageDraw.rectangle([x0, y0, x1, y1])` paints
with both corners inclusive, which the embedding reproduces. -/

namespace GenTest

/-- `Image.new('RGB', (320, 256), color='black')` — the background color. -/
def black : SSTV.RGB := ⟨0, 0, 0⟩

/-- The color-bar list of `generate-sstv-test.py` (white, yellow, cyan, green,
magenta, red, blue), in painting order. -/
def colors : List SSTV.RGB :=
  [⟨255, 255, 255⟩, ⟨255, 255, 0⟩, ⟨0, 255, 255⟩, ⟨0, 255, 0⟩,
   ⟨255, 0, 255⟩, ⟨255, 0, 0⟩, ⟨0, 0, 255⟩]

/-- `bar_width = 320 // len(colors)`. -/
def barWidth : ℕ := 320 / colors.length

/-- PIL `draw.rectangle([x0, y0, x1, y1], fill=c)` over an existing pixel
grid: both corner coordinates are inclusive, and the freshly painted rectangle
wins over whatever was below. -/
def paintRect (c : SSTV.RGB) (x0 y0 x1 y1 : ℕ) (f : ℕ → ℕ → SSTV.RGB) :
    ℕ → ℕ → SSTV.RGB :=
  fun x y => if x0 ≤ x ∧ x ≤ x1 ∧ y0 ≤ y ∧ y ≤ y1 then c else f x y

/-- The bar-painting loop `for i, color in enumerate(colors):
draw.rectangle([i*bar_width, 0, i*bar_width + bar_width, 256], fill=color)`
over the black background; bars painted later overwrite earlier ones where
they overlap. -/
def barsPainted : ℕ → ℕ → SSTV.RGB :=
  (List.range colors.length).foldl
    (fun f i =>
      paintRect (colors.getD i black) (i * barWidth) 0 (i * barWidth + barWidth) 256 f)
    (fun _ _ => black)

/-- The test-pattern pixel grid after the deterministic drawing steps: the
bars, then the black text box `draw.rectangle([50, 100, 270, 160],
fill='black')`.  The two `draw.text` calls rasterize glyphs through an
external font library and are not modelled. -/
def testImagePixel : ℕ → ℕ → SSTV.RGB := paintRect black 50 100 270 160 barsPainted

/-- The generated test-pattern image: `Image.new('RGB', (320, 256), ...)`. -/
def testImage : SSTV.Image := ⟨320, 256, testImagePixel⟩

/-- Sample rate of the encode call `Robot36(img, 48000, 16)`. -/
def sampleRate : ℕ := 48000

/-- Bit depth of the encode call `Robot36(img, 48000, 16)`. -/
def bitDepth : ℕ := 16

end GenTest

/-! ## Theorems -/

namespace SSTV

lemma clamp255_le (z : ℤ) : clamp255 z ≤ 255 := by
  unfold clamp255
  omega

lemma clamp255_of_mem (z : ℤ) (h0 : 0 ≤ z) (h1 : z ≤ 255) : (clamp255 z : ℤ) = z := by
  unfold clamp255
  omega

/-- The intensity→Hz→intensity round trip is exact on bytes: the inner rational
expression recovers `i` exactly, and rounding plus clamping leave it unchanged. -/
lemma toIntensity_toHz (i : ℕ) (hi : i ≤ 255) : toIntensity (toHz i) = i := by
  have hval : ((toHz i - 1500) / 800 * 255 : ℚ) = (i : ℚ) := by
    unfold toHz
    ring
  unfold toIntensity
  rw [hval, round_natCast]
  have := clamp255_of_mem (i : ℤ) (by positivity) (by exact_mod_cast hi)
  omega

/-- `toIntensity` always lands in the byte range. -/
lemma toIntensity_le (hz : ℚ) : toIntensity hz ≤ 255 := clamp255_le _

lemma quant_le (q : ℚ) : quant q ≤ 255 := clamp255_le _

/-- **C3.** For every intensity `i` in `0..255`, `toIntensity (toHz i)` is
within ±1 of `i` (in fact they are equal), and Hz values outside
`[1500, 2300]` are clamped by `toIntensity` into the byte range rather than
causing an error: values at or below 1500 Hz map to 0 and values at or above
2300 Hz map to 255. -/
theorem frequencyMap_roundtrip (i : ℕ) (hi : i ≤ 255) :
    ((toIntensity (toHz i) : ℤ) - (i : ℤ)).natAbs ≤ 1 ∧
    toIntensity (toHz i) = i ∧
    (∀ hz : ℚ, hz ≤ 1500 → toIntensity hz = 0) ∧
    (∀ hz : ℚ, 2300 ≤ hz → toIntensity hz = 255) := by
  refine ⟨?_, toIntensity_toHz i hi, ?_, ?_⟩
  · rw [toIntensity_toHz i hi]
    simp
  · intro hz hle
    have h1 : ((round ((hz - 1500) / 800 * 255 : ℚ) : ℤ) : ℚ) < 1 := by
      have hv : ((hz - 1500) / 800 * 255 : ℚ) ≤ 0 := by
        have h1 : (hz - 1500 : ℚ) ≤ 0 := by linarith
        have h2 : ((hz - 1500) / 800 : ℚ) ≤ 0 := by
          apply div_nonpos_of_nonpos_of_nonneg h1
          norm_num
        nlinarith
      have := round_le_add_half ((hz - 1500) / 800 * 255 : ℚ)
      linarith
    have hr : (round ((hz - 1500) / 800 * 255 : ℚ) : ℤ) < 1 := by exact_mod_cast h1
    unfold toIntensity clamp255
    omega
  · intro hz hge
    have hv : (255 : ℚ) ≤ (hz - 1500) / 800 * 255 := by
      have h1 : (800 : ℚ) ≤ hz - 1500 := by linarith
      have h2 : (1 : ℚ) ≤ (hz - 1500) / 800 := by
        rw [le_div_iff₀ (by norm_num : (0:ℚ) < 800)]
        linarith
      nlinarith
    have h3 : ((254 : ℤ) : ℚ) < ((round ((hz - 1500) / 800 * 255 : ℚ) : ℤ) : ℚ) := by
      have := sub_half_lt_round ((hz - 1500) / 800 * 255 : ℚ)
      push_cast
      linarith
    have hr : (254 : ℤ) < round ((hz - 1500) / 800 * 255 : ℚ) := by exact_mod_cast h3
    unfold toIntensity clamp255
    omega

/-- **C10.** The test-pattern image built by `generate-sstv-test.py` is
320×256 pixels (not the mode's 320×240); its seven color bars each have width
`320 // 7 = 45` columns starting at `x = i*45`, so the bars cover only columns
0 through 315 (the right edge of bar `i` is column `i*45 + 45 ≤ 315`, with
PIL's inclusive rectangle corners) and the rightmost columns 316–319 of the
image retain the initial black background; the image is then encoded at a
48000 Hz sample rate and 16-bit depth. -/
theorem testPattern_geometry :
    GenTest.testImage.width = 320 ∧ GenTest.testImage.height = 256 ∧
    GenTest.barWidth = 45 ∧
    (∀ i, i < GenTest.colors.length → i * GenTest.barWidth + GenTest.barWidth ≤ 315) ∧
    (∀ x y, 316 ≤ x → x < 320 → y < 256 →
      GenTest.testImage.pixel x y = GenTest.black) ∧
    GenTest.sampleRate = 48000 ∧ GenTest.bitDepth = 16 := by
  refine ⟨rfl, rfl, by decide, by decide, ?_, rfl, rfl⟩
  intro x y hx _hx' _hy
  show GenTest.testImagePixel x y = GenTest.black
  have hrange : List.range GenTest.colors.length = [0, 1, 2, 3, 4, 5, 6] := by decide
  unfold GenTest.testImagePixel GenTest.barsPainted
  rw [hrange]
  simp only [List.foldl, GenTest.paintRect, GenTest.colors, GenTest.barWidth]
  norm_num
  intro _
  split_ifs <;> first | rfl | omega

/-- Witness for C10: column 318 of row 10 (and of row 130, inside the text-box
rows) is still the black background, and bar 6's right edge stays at column
315. -/
theorem testPattern_geometry_witness :
    GenTest.testImage.pixel 318 10 = GenTest.black ∧
    GenTest.testImage.pixel 318 130 = GenTest.black ∧
    6 * GenTest.barWidth + GenTest.barWidth ≤ 315 :=
  ⟨testPattern_geometry.2.2.2.2.1 318 10 (by norm_num) (by norm_num) (by norm_num),
   testPattern_geometry.2.2.2.2.1 318 130 (by norm_num) (by norm_num) (by norm_num),
   testPattern_geometry.2.2.2.1 6 (by decide)⟩

lemma toneMatches_self (t : Tone) (h : 0 ≤ t.dur) : toneMatches t t :=
  ⟨rfl, by nlinarith, by nlinarith⟩

lemma classifyBit_visBitTone (b : Bool) : classifyBit (visBitTone b) = b := by
  cases b <;> norm_num [classifyBit, visBitTone]

lemma bitsVal_lt (bs : List Bool) : bitsVal bs < 2 ^ bs.length := by
  induction bs with
  | nil => decide
  | cons b t ih =>
    unfold bitsVal at ih ⊢
    simp only [List.foldr_cons, List.length_cons, pow_succ]
    cases b <;> simp <;> omega

/-- On 7-bit codes, the LSB-first bit expansion followed by `bitsVal` is the
identity. -/
lemma bitsVal_visBits : ∀ code < 128, bitsVal (visBits code) = code := by decide

lemma visBits_eq (code : ℕ) :
    visBits code = [code.testBit 0, code.testBit 1, code.testBit 2, code.testBit 3,
      code.testBit 4, code.testBit 5, code.testBit 6] := rfl

/-- VIS decode inverts VIS encode and leaves the remaining stream untouched. -/
lemma decodeVIS_encodeVIS (code : ℕ) (hc : code < 128) (rest : List Tone) :
    decodeVIS (encodeVIS code ++ rest) = Except.ok (code, rest) := by
  rw [encodeVIS, visBits_eq]
  simp only [List.map_cons, List.map_nil, List.cons_append, List.nil_append,
    List.append_assoc]
  rw [decodeVIS]
  rw [if_pos (⟨toneMatches_self _ (by norm_num [visLeaderTone]),
    toneMatches_self _ (by norm_num [visBreakTone]),
    toneMatches_self _ (by norm_num [visLeaderTone]),
    toneMatches_self _ (by norm_num [visStartTone]),
    toneMatches_self _ (by norm_num [visStopTone])⟩ :
      toneMatches _ visLeaderTone ∧ toneMatches _ visBreakTone
        ∧ toneMatches _ visLeaderTone ∧ toneMatches _ visStartTone
        ∧ toneMatches _ visStopTone)]
  simp only [List.map_cons, List.map_nil, classifyBit_visBitTone]
  rw [if_pos trivial]
  rw [← visBits_eq, bitsVal_visBits code hc]

/-- Flipping the parity bit of an encoded header makes decode fail. -/
lemma decodeVIS_flipped (code : ℕ) (rest : List Tone) :
    decodeVIS (encodeVISFlippedParity code ++ rest)
      = Except.error DecodeError.invalidHeader := by
  rw [encodeVISFlippedParity, visBits_eq]
  simp only [List.map_cons, List.map_nil, List.cons_append, List.nil_append,
    List.append_assoc]
  rw [decodeVIS]
  rw [if_pos (⟨toneMatches_self _ (by norm_num [visLeaderTone]),
    toneMatches_self _ (by norm_num [visBreakTone]),
    toneMatches_self _ (by norm_num [visLeaderTone]),
    toneMatches_self _ (by norm_num [visStartTone]),
    toneMatches_self _ (by norm_num [visStopTone])⟩ :
      toneMatches _ visLeaderTone ∧ toneMatches _ visBreakTone
        ∧ toneMatches _ visLeaderTone ∧ toneMatches _ visStartTone
        ∧ toneMatches _ visStopTone)]
  simp only [List.map_cons, List.map_nil, classifyBit_visBitTone, ← visBits_eq]
  rw [if_neg (by cases parityBit (visBits code) <;> simp)]

/-- Any successful header decode yields a complete validated 7-bit code. -/
lemma decodeVIS_ok_lt (ts : List Tone) (c : ℕ) (r : List Tone)
    (h : decodeVIS ts = Except.ok (c, r)) : c < 128 := by
  unfold decodeVIS at h
  split at h
  case _ l1 br l2 st b0 b1 b2 b3 b4 b5 b6 pb sp rest =>
    split_ifs at h
    have h2 : (bitsVal ([b0, b1, b2, b3, b4, b5, b6].map classifyBit), rest) = (c, r) := by
      injection h
    have h3 : bitsVal ([b0, b1, b2, b3, b4, b5, b6].map classifyBit) = c :=
      (Prod.ext_iff.mp h2).1
    have h4 := bitsVal_lt ([b0, b1, b2, b3, b4, b5, b6].map classifyBit)
    simp only [List.length_map, List.length_cons, List.length_nil] at h4
    rw [h3] at h4
    exact lt_of_lt_of_le h4 (by norm_num)
  case _ => exact absurd h (by simp)

/-- **C4.** VIS header encode followed by VIS header decode returns the
original 7-bit mode code exactly (and consumes exactly the header, leaving any
following stream untouched); if the parity bit of an encoded header is
flipped, decode fails with `InvalidHeader`; and header decode never accepts a
header partially — every successful decode yields a complete validated 7-bit
code (the `Except` result carries either a full code or an error, nothing in
between). -/
theorem visHeader_roundtrip (code : ℕ) (hc : code < 128) :
    (∀ rest, decodeVIS (encodeVIS code ++ rest) = Except.ok (code, rest)) ∧
    (∀ rest, decodeVIS (encodeVISFlippedParity code ++ rest)
        = Except.error DecodeError.invalidHeader) ∧
    (∀ ts c r, decodeVIS ts = Except.ok (c, r) → c < 128) :=
  ⟨fun rest => decodeVIS_encodeVIS code hc rest,
   fun rest => decodeVIS_flipped code rest,
   decodeVIS_ok_lt⟩

/-- Witness for C4 at the Robot36 VIS code 8. -/
theorem visHeader_roundtrip_witness :
    decodeVIS (encodeVIS 8 ++ []) = Except.ok (8, []) ∧
    decodeVIS (encodeVISFlippedParity 8 ++ [])
      = Except.error DecodeError.invalidHeader :=
  ⟨(visHeader_roundtrip 8 (by norm_num)).1 [],
   (visHeader_roundtrip 8 (by norm_num)).2.1 []⟩

lemma lumaTones_dur_sum (img : Image) (line : ℕ) :
    ((lumaTones img line).map Tone.dur).sum = 88 := by
  have h : ((lumaTones img line).map Tone.dur) = List.replicate 320 lumaToneDur := by
    unfold lumaTones
    rw [List.map_map]
    have : (Tone.dur ∘ fun x => (⟨toHz (luma8 (img.pixel x line)), lumaToneDur⟩ : Tone))
        = fun _ => lumaToneDur := rfl
    rw [this]
    rw [List.map_const', List.length_range]
  rw [h, List.sum_replicate]
  norm_num [lumaToneDur]

lemma chromaTones_dur_sum (img : Image) (line : ℕ) :
    ((chromaTones img line).map Tone.dur).sum = 44 := by
  have h : ((chromaTones img line).map Tone.dur) = List.replicate 160 chromaToneDur := by
    unfold chromaTones
    rw [List.map_map]
    have : (Tone.dur ∘ fun j => (⟨toHz (chromaVal img line j), chromaToneDur⟩ : Tone))
        = fun _ => chromaToneDur := rfl
    rw [this]
    rw [List.map_const', List.length_range]
  rw [h, List.sum_replicate]
  norm_num [chromaToneDur]

/-- **C5.** For every scanline, the LineEncoder emits exactly the tone
sequence: sync pulse 9 ms @ 1200 Hz, then porch 3 ms @ 1500 Hz, then 320 luma
tones totalling 88 ms, then separator 4.5 ms @ 1500 Hz, then 160 chroma tones
totalling 44 ms (Cr averages for odd line indices, Cb for even), and the sum
of all tone durations of a line equals the fixed nominal line period
(148.5 ms) for every line. -/
theorem lineEncoder_tones (img : Image) (line : ℕ) :
    encodeLine img line
        = [syncTone, porchTone] ++ lumaTones img line
          ++ [sepTone] ++ chromaTones img line ∧
    syncTone = ⟨1200, 9⟩ ∧ porchTone = ⟨1500, 3⟩ ∧ sepTone = ⟨1500, 9 / 2⟩ ∧
    (lumaTones img line).length = 320 ∧
    ((lumaTones img line).map Tone.dur).sum = 88 ∧
    (chromaTones img line).length = 160 ∧
    ((chromaTones img line).map Tone.dur).sum = 44 ∧
    (line % 2 = 1 → ∀ j, chromaVal img line j
        = quant ((crQ (img.pixel (2 * j) line) + crQ (img.pixel (2 * j + 1) line)) / 2)) ∧
    (line % 2 = 0 → ∀ j, chromaVal img line j
        = quant ((cbQ (img.pixel (2 * j) line) + cbQ (img.pixel (2 * j + 1) line)) / 2)) ∧
    ((encodeLine img line).map Tone.dur).sum = nominalLinePeriod := by
  refine ⟨(by unfold encodeLine; simp only [List.append_assoc, List.cons_append,
      List.nil_append]),
    rfl, rfl, rfl,
    by unfold lumaTones; rw [List.length_map, List.length_range],
    lumaTones_dur_sum img line,
    by unfold chromaTones; rw [List.length_map, List.length_range],
    chromaTones_dur_sum img line,
    ?_, ?_, ?_⟩
  · intro hodd j
    unfold chromaVal
    rw [if_pos hodd]
  · intro heven j
    unfold chromaVal
    rw [if_neg (by omega)]
  · have hsplit : ((encodeLine img line).map Tone.dur).sum
        = syncTone.dur + porchTone.dur + ((lumaTones img line).map Tone.dur).sum
          + sepTone.dur + ((chromaTones img line).map Tone.dur).sum := by
      unfold encodeLine
      rw [List.map_cons, List.map_cons, List.map_append, List.map_cons,
        List.sum_cons, List.sum_cons, List.sum_append, List.sum_cons]
      ring
    rw [hsplit, lumaTones_dur_sum, chromaTones_dur_sum]
    norm_num [syncTone, porchTone, sepTone, nominalLinePeriod]

/-- Witness for C5 on the uniform gray image at (odd) line 1: the line's tone
durations sum to the nominal line period and the chroma samples come from Cr. -/
theorem lineEncoder_tones_witness :
    ((encodeLine grayImage 1).map Tone.dur).sum = nominalLinePeriod ∧
    chromaVal grayImage 1 0
      = quant ((crQ (grayImage.pixel 0 1) + crQ (grayImage.pixel 1 1)) / 2) := by
  obtain ⟨-, -, -, -, -, -, -, -, hodd, -, hsum⟩ := lineEncoder_tones grayImage 1
  exact ⟨hsum, by simpa using hodd rfl 0⟩

/-- Witness for C3 at `i = 128`. -/
theorem frequencyMap_roundtrip_witness :
    ((toIntensity (toHz 128) : ℤ) - (128 : ℤ)).natAbs ≤ 1 ∧
    toIntensity (toHz 128) = 128 ∧
    (∀ hz : ℚ, hz ≤ 1500 → toIntensity hz = 0) ∧
    (∀ hz : ℚ, 2300 ≤ hz → toIntensity hz = 255) :=
  frequencyMap_roundtrip 128 (by norm_num)

lemma synthPhases_length (rate : ℚ) (ts : List Tone) :
    ∀ φ, (synthPhases rate φ ts).length = totalSamples rate ts := by
  induction ts with
  | nil => intro φ; rfl
  | cons t ts ih =>
    intro φ
    show ((List.range (sampleCount rate t)).map
        (fun i => (phaseStep rate t.freq)^[i] φ)
      ++ synthPhases rate ((phaseStep rate t.freq)^[sampleCount rate t] φ) ts).length = _
    rw [List.length_append, List.length_map, List.length_range, ih]
    show _ = (List.map (sampleCount rate) (t :: ts)).sum
    rw [List.map_cons, List.sum_cons]
    rfl

lemma synthPhases_zero (rate : ℚ) (ts : List Tone) :
    ∀ φ, 0 < (synthPhases rate φ ts).length →
      (synthPhases rate φ ts).getD 0 0 = φ := by
  induction ts with
  | nil => intro φ h; exact absurd h (by simp [synthPhases])
  | cons t ts ih =>
    intro φ h
    have hshape : synthPhases rate φ (t :: ts)
        = (List.range (sampleCount rate t)).map (fun i => (phaseStep rate t.freq)^[i] φ)
          ++ synthPhases rate ((phaseStep rate t.freq)^[sampleCount rate t] φ) ts := rfl
    by_cases hc : 0 < sampleCount rate t
    · rw [hshape, List.getD_append _ _ _ _ (by
        rw [List.length_map, List.length_range]; exact hc)]
      rw [List.getD_eq_getElem _ _ (by
        rw [List.length_map, List.length_range]; exact hc)]
      simp
    · have hc0 : sampleCount rate t = 0 := by omega
      have hb : (List.range (sampleCount rate t)).map
          (fun i => (phaseStep rate t.freq)^[i] φ) = [] := by
        rw [hc0]; rfl
      have hiter : (phaseStep rate t.freq)^[sampleCount rate t] φ = φ := by
        rw [hc0]; rfl
      rw [hshape, hb, List.nil_append, hiter] at h ⊢
      exact ih φ h

lemma synthPhases_succ (rate : ℚ) (ts : List Tone) :
    ∀ φ n, n + 1 < (synthPhases rate φ ts).length →
      (synthPhases rate φ ts).getD (n + 1) 0
        = Int.fract ((synthPhases rate φ ts).getD n 0 + freqAt rate ts n / rate) := by
  induction ts with
  | nil => intro φ n h; exact absurd h (by simp [synthPhases])
  | cons t ts ih =>
    intro φ n h2
    have hshape : synthPhases rate φ (t :: ts)
        = (List.range (sampleCount rate t)).map (fun i => (phaseStep rate t.freq)^[i] φ)
          ++ synthPhases rate ((phaseStep rate t.freq)^[sampleCount rate t] φ) ts := rfl
    have hblen : ((List.range (sampleCount rate t)).map
        (fun i => (phaseStep rate t.freq)^[i] φ)).length = sampleCount rate t := by
      rw [List.length_map, List.length_range]
    have hfa : freqAt rate (t :: ts) n
        = if n < sampleCount rate t then t.freq
          else freqAt rate ts (n - sampleCount rate t) := rfl
    have gb : ∀ i, i < sampleCount rate t →
        ((List.range (sampleCount rate t)).map
          (fun i => (phaseStep rate t.freq)^[i] φ)).getD i 0
        = (phaseStep rate t.freq)^[i] φ := by
      intro i hi
      rw [List.getD_eq_getElem _ _ (by rw [hblen]; exact hi)]
      simp
    rw [hshape] at h2 ⊢
    rw [List.length_append, hblen] at h2
    rcases lt_or_ge (n + 1) (sampleCount rate t) with hlt | hge
    · rw [List.getD_append _ _ _ _ (by rw [hblen]; exact hlt),
        List.getD_append _ _ _ _ (by rw [hblen]; omega),
        gb (n + 1) hlt, gb n (by omega), hfa, if_pos (by omega),
        Function.iterate_succ_apply']
      rfl
    · rcases eq_or_lt_of_le hge with heq | hgt
      · -- boundary sample: n ends this tone's block, n + 1 opens the next block
        have hn : n < sampleCount rate t := by omega
        rw [List.getD_append_right _ _ _ _ (by rw [hblen]; omega),
          List.getD_append _ _ _ _ (by rw [hblen]; exact hn), hblen]
        rw [show n + 1 - sampleCount rate t = 0 from by omega]
        rw [synthPhases_zero rate ts _ (by
          rw [synthPhases_length]
          rw [synthPhases_length] at h2
          omega)]
        rw [gb n hn, hfa, if_pos hn]
        rw [show sampleCount rate t = n + 1 from by omega, Function.iterate_succ_apply']
        rfl
      · -- inside a later tone: apply the induction hypothesis
        rw [List.getD_append_right _ _ _ _ (by rw [hblen]; omega),
          List.getD_append_right _ _ _ _ (by rw [hblen]; omega), hblen]
        rw [show n + 1 - sampleCount rate t = (n - sampleCount rate t) + 1 from by omega]
        rw [ih _ (n - sampleCount rate t) (by
          rw [synthPhases_length]
          rw [synthPhases_length] at h2
          omega)]
        rw [hfa, if_neg (by omega)]

/-- **C6.** The ToneSynthesizer maintains a single running phase accumulator:
for every sample index `n` of the synthesized stream (phases kept in cycle
units, so radians are `2π·phase`), `phase (n+1) =
Int.fract (phase n + f/rate)` where `f` is the frequency of the tone owning
sample `n` — equivalently, in the spec's radian form, `2π·phase (n+1) =
2π·phase n + 2π·f/rate (mod 2π)`.  The recurrence holds uniformly at every
index, including every boundary between consecutive tones, so the phase is
never reset between tones. -/
theorem toneSynthesizer_phase (rate φ0 : ℚ) (tones : List Tone) (n : ℕ)
    (h : n + 1 < (synthPhases rate φ0 tones).length) :
    (synthPhases rate φ0 tones).getD (n + 1) 0
        = Int.fract ((synthPhases rate φ0 tones).getD n 0
            + freqAt rate tones n / rate) ∧
    ∃ k : ℤ,
      2 * Real.pi * (((synthPhases rate φ0 tones).getD (n + 1) 0 : ℚ) : ℝ)
        = 2 * Real.pi * (((synthPhases rate φ0 tones).getD n 0 : ℚ) : ℝ)
          + 2 * Real.pi * ((freqAt rate tones n / rate : ℚ) : ℝ)
          - k * (2 * Real.pi) := by
  have hrec := synthPhases_succ rate tones φ0 n h
  refine ⟨hrec, ⟨⌊(synthPhases rate φ0 tones).getD n 0 + freqAt rate tones n / rate⌋, ?_⟩⟩
  have hq : (synthPhases rate φ0 tones).getD (n + 1) 0
      = ((synthPhases rate φ0 tones).getD n 0 + freqAt rate tones n / rate)
        - (⌊(synthPhases rate φ0 tones).getD n 0 + freqAt rate tones n / rate⌋ : ℚ) := by
    rw [hrec]
    rfl
  rw [hq]
  push_cast
  ring

/-- Witness for C6 at the boundary sample between two tones (rate 1000 Hz,
two 2 ms tones of 1 Hz, so sample 1 is the last sample of the first tone and
sample 2 the first sample of the second). -/
theorem toneSynthesizer_phase_witness :
    (synthPhases 1000 0 [⟨1, 2⟩, ⟨1, 2⟩]).getD (1 + 1) 0
        = Int.fract ((synthPhases 1000 0 [⟨1, 2⟩, ⟨1, 2⟩]).getD 1 0
            + freqAt 1000 [⟨1, 2⟩, ⟨1, 2⟩] 1 / 1000) ∧
    ∃ k : ℤ,
      2 * Real.pi * (((synthPhases 1000 0 [⟨1, 2⟩, ⟨1, 2⟩]).getD (1 + 1) 0 : ℚ) : ℝ)
        = 2 * Real.pi * (((synthPhases 1000 0 [⟨1, 2⟩, ⟨1, 2⟩]).getD 1 0 : ℚ) : ℝ)
          + 2 * Real.pi * ((freqAt 1000 [⟨1, 2⟩, ⟨1, 2⟩] 1 / 1000 : ℚ) : ℝ)
          - k * (2 * Real.pi) :=
  toneSynthesizer_phase 1000 0 [⟨1, 2⟩, ⟨1, 2⟩] 1 (by
    rw [synthPhases_length]
    have hsc : sampleCount 1000 ⟨1, 2⟩ = 2 := by
      unfold sampleCount
      norm_num [round_eq]
      rfl
    show 1 + 1 < (List.map (sampleCount 1000) [⟨1, 2⟩, ⟨1, 2⟩]).sum
    rw [List.map_cons, List.map_cons, List.map_nil, hsc, List.sum_cons,
      List.sum_cons, List.sum_nil]
    omega)

/-- **C2.** Encode fails immediately with `InvalidImageDimensions` on every
input image whose dimensions are not exactly 320×240, and produces no partial
audio output (the error result carries no tones); encode succeeds exactly on
images of the mode's fixed size. -/
theorem encode_dimension_check (img : Image) :
    (¬(img.width = 320 ∧ img.height = 240) →
      encode img = Except.error EncodeError.invalidImageDimensions) ∧
    ((img.width = 320 ∧ img.height = 240) →
      encode img = Except.ok (encodeTones img)) := by
  constructor
  · intro h
    unfold encode
    rw [if_neg h]
  · intro h
    unfold encode
    rw [if_pos h]

/-- Witness for C2: the scripts' 320×256 test image is rejected, while a
320×240 image is accepted. -/
theorem encode_dimension_check_witness :
    encode ⟨320, 256, fun _ _ => ⟨0, 0, 0⟩⟩
        = Except.error EncodeError.invalidImageDimensions ∧
    encode grayImage = Except.ok (encodeTones grayImage) :=
  ⟨(encode_dimension_check ⟨320, 256, fun _ _ => ⟨0, 0, 0⟩⟩).1
      (fun h => absurd h.2 (by decide)),
   (encode_dimension_check grayImage).2 ⟨rfl, rfl⟩⟩

lemma decode_noHeader (ts : List Tone)
    (h : findHeader headerScanWindow ts = none) :
    decode ts = Except.error DecodeError.noSignalDetected := by
  unfold decode
  rw [h]

lemma findHeader_cons_leader (ts : List Tone) :
    findHeader headerScanWindow (visLeaderTone :: ts) = some (visLeaderTone :: ts) := by
  show findHeader (99 + 1) (visLeaderTone :: ts) = some (visLeaderTone :: ts)
  rw [findHeader]
  rw [if_pos (toneMatches_self _ (by norm_num [visLeaderTone]))]

lemma flipped_header_shape (code : ℕ) (rest : List Tone) :
    encodeVISFlippedParity code ++ rest
      = visLeaderTone :: (visBreakTone :: visLeaderTone :: visStartTone ::
          ((visBits code).map visBitTone
            ++ visBitTone (!parityBit (visBits code)) :: visStopTone :: rest)) := by
  unfold encodeVISFlippedParity
  simp only [List.cons_append, List.nil_append, List.append_assoc]

/-- **C8.** When no header is acquired within the bounded initial scan
window, decode returns a failure labelled `NoSignalDetected` with zero
populated lines, and this outcome is distinguishable from the
`InvalidHeader` outcome, which is what a header found but failing its parity
check produces. -/
theorem noSignal_outcome (ts : List Tone)
    (h : findHeader headerScanWindow ts = none) :
    decode ts = Except.error DecodeError.noSignalDetected ∧
    populatedLines (decode ts) = 0 ∧
    DecodeError.noSignalDetected ≠ DecodeError.invalidHeader ∧
    (∀ code rest, decode (encodeVISFlippedParity code ++ rest)
        = Except.error DecodeError.invalidHeader) := by
  have hd := decode_noHeader ts h
  refine ⟨hd, by rw [hd]; rfl, by decide, ?_⟩
  intro code rest
  have hflip : decodeVIS (visLeaderTone :: (visBreakTone :: visLeaderTone ::
      visStartTone :: ((visBits code).map visBitTone
        ++ visBitTone (!parityBit (visBits code)) :: visStopTone :: rest)))
      = Except.error DecodeError.invalidHeader := by
    rw [← flipped_header_shape code rest]
    exact decodeVIS_flipped code rest
  unfold decode
  rw [flipped_header_shape code rest]
  simp only [findHeader_cons_leader, hflip]

/-- Witness for C8 on the empty stream (no header can be found). -/
theorem noSignal_outcome_witness :
    decode [] = Except.error DecodeError.noSignalDetected ∧
    populatedLines (decode []) = 0 ∧
    DecodeError.noSignalDetected ≠ DecodeError.invalidHeader ∧
    (∀ code rest, decode (encodeVISFlippedParity code ++ rest)
        = Except.error DecodeError.invalidHeader) :=
  noSignal_outcome [] rfl

lemma syncFree_findSync (ts : List Tone) (h : SyncFree ts) :
    ∀ b, findSyncAux ts b = none := by
  induction ts with
  | nil => intro b; rfl
  | cons t ts ih =>
    intro b
    show (if b < 0 then none
      else if toneMatches t syncTone then some (t :: ts)
      else findSyncAux ts (b - t.dur)) = none
    by_cases hb : b < 0
    · rw [if_pos hb]
    · rw [if_neg hb, if_neg (h t (by simp)),
        ih (fun u hu => h u (by simp [hu])) (b - t.dur)]

lemma syncFree_dropDuration (b : ℚ) (ts : List Tone) (h : SyncFree ts) :
    SyncFree (dropDuration b ts) := by
  induction ts generalizing b with
  | nil => exact h
  | cons t ts ih =>
    show SyncFree (if b ≤ 0 then t :: ts else dropDuration (b - t.dur) ts)
    by_cases hb : b ≤ 0
    · rw [if_pos hb]; exact h
    · rw [if_neg hb]
      exact ih (b - t.dur) (fun u hu => h u (List.mem_cons_of_mem t hu))

lemma decodeLinesAux_of_aborted (n idx : ℕ) (stream : List Tone) (st : LoopState)
    (h : st.aborted = true) : decodeLinesAux n idx stream st = st := by
  cases n with
  | zero => rfl
  | succ n =>
    show (if st.aborted then st else _) = st
    rw [if_pos h]

/-- On a sync-free stream (including the exhausted empty stream) the loop
always reaches ABORTED, and the lines accumulated before entering the loop
are preserved in the result. -/
lemma syncFree_run (n : ℕ) : ∀ idx stream st, st.aborted = false →
    st.consecMiss < abortThreshold → abortThreshold ≤ st.consecMiss + n →
    SyncFree stream →
    (decodeLinesAux n idx stream st).aborted = true ∧
    ∃ ext, (decodeLinesAux n idx stream st).acc = st.acc ++ ext := by
  induction n with
  | zero =>
    intro idx stream st h1 h2 h3 h4
    exact absurd h3 (by omega)
  | succ n ih =>
    intro idx stream st h1 h2 h3 h4
    rw [show decodeLinesAux (n + 1) idx stream st
        = if st.aborted then st
          else if stream.isEmpty then ⟨st.acc, st.synced, st.consecMiss, false, true⟩
          else match findSyncAux stream syncSearchWindow with
            | some suffix =>
              match parseLine idx suffix with
              | some (sl, rest) =>
                decodeLinesAux n (idx + 1) rest
                  ⟨st.acc ++ [some sl], st.synced + 1, 0, st.complete, false⟩
              | none =>
                decodeLinesAux n (idx + 1) (dropDuration nominalLinePeriod stream)
                  (missState st)
            | none =>
              decodeLinesAux n (idx + 1) (dropDuration nominalLinePeriod stream)
                (missState st)
      from rfl]
    rw [if_neg (by rw [h1]; exact Bool.false_ne_true)]
    by_cases hemp : stream.isEmpty
    · rw [if_pos hemp]
      exact ⟨rfl, ⟨[], by simp⟩⟩
    · rw [if_neg hemp]
      rw [syncFree_findSync stream h4 syncSearchWindow]
      by_cases hth : abortThreshold ≤ st.consecMiss + 1
      · have habort : (missState st).aborted = true := by
          unfold missState
          simp [hth]
        rw [decodeLinesAux_of_aborted n _ _ _ habort]
        exact ⟨habort, ⟨[none], rfl⟩⟩
      · have h1m : (missState st).aborted = false := by
          unfold missState
          simp [hth]
        obtain ⟨ha, ext, hacc⟩ := ih (idx + 1)
          (dropDuration nominalLinePeriod stream) (missState st) h1m
          (by unfold missState; simp; omega)
          (by unfold missState; simp; omega)
          (syncFree_dropDuration nominalLinePeriod stream h4)
        refine ⟨ha, ⟨none :: ext, ?_⟩⟩
        rw [hacc]
        unfold missState
        simp

/-- **C9.** From every decoder state (any accumulated frame, any line index),
the ABORTED state is reachable on stream exhaustion or after the configured
number (`abortThreshold`) of consecutive line-periods without valid sync — a
sync-free remaining stream covers both: the empty stream aborts immediately
and a nonempty one accumulates misses up to the threshold — and entering
ABORTED still returns the partial frame accumulated so far (the previously
accumulated lines are preserved in the result) rather than discarding it or
looping forever (the loop's fuel is finite). -/
theorem aborted_reachable (st : LoopState) (n idx : ℕ) (stream : List Tone)
    (h1 : st.aborted = false) (h2 : st.consecMiss < abortThreshold)
    (h3 : abortThreshold ≤ st.consecMiss + n) (h4 : SyncFree stream) :
    (decodeLinesAux n idx stream st).aborted = true ∧
    ∃ ext, (decodeLinesAux n idx stream st).acc = st.acc ++ ext :=
  syncFree_run n idx stream st h1 h2 h3 h4

/-- Witness for C9: the initial state with an exhausted (empty) stream aborts
and keeps its (empty) accumulated frame. -/
theorem aborted_reachable_witness :
    (decodeLinesAux 240 0 [] initState).aborted = true ∧
    ∃ ext, (decodeLinesAux 240 0 [] initState).acc = initState.acc ++ ext :=
  aborted_reachable initState 240 0 [] rfl (by decide) (by decide)
    (fun t ht => absurd ht (List.not_mem_nil t))

/-- **C7 (amended).** For every line during decode for which no valid sync
pulse is located within the bounded search window, provided the configured
consecutive-miss abort threshold has not yet been reached, decode does not
abort: the loop continues in a non-aborted state, the line is marked missing,
the detector advances its stream-position prediction by exactly one nominal
line period (dead-reckoning), the missing line is later filled by
interpolating from the vertically adjacent synced lines, and the frame's
completeness flag is cleared. -/
theorem syncLost_step (n idx : ℕ) (stream : List Tone) (st : LoopState)
    (h1 : st.aborted = false) (h2 : stream ≠ [])
    (hmiss : findSyncAux stream syncSearchWindow = none)
    (hth : st.consecMiss + 1 < abortThreshold) :
    decodeLinesAux (n + 1) idx stream st
        = decodeLinesAux n (idx + 1) (dropDuration nominalLinePeriod stream)
            (missState st) ∧
    (missState st).aborted = false ∧
    (missState st).acc = st.acc ++ [none] ∧
    (missState st).complete = false ∧
    (∀ lines i a b, lines.getD i none = none →
      prevSynced lines i = some a → nextSynced lines i = some b →
      interpLine lines i = avgLine i a b) := by
  refine ⟨?_, ?_, rfl, rfl, ?_⟩
  · rw [show decodeLinesAux (n + 1) idx stream st
        = if st.aborted then st
          else if stream.isEmpty then ⟨st.acc, st.synced, st.consecMiss, false, true⟩
          else match findSyncAux stream syncSearchWindow with
            | some suffix =>
              match parseLine idx suffix with
              | some (sl, rest) =>
                decodeLinesAux n (idx + 1) rest
                  ⟨st.acc ++ [some sl], st.synced + 1, 0, st.complete, false⟩
              | none =>
                decodeLinesAux n (idx + 1) (dropDuration nominalLinePeriod stream)
                  (missState st)
            | none =>
              decodeLinesAux n (idx + 1) (dropDuration nominalLinePeriod stream)
                (missState st)
      from rfl]
    rw [if_neg (by rw [h1]; exact Bool.false_ne_true)]
    rw [if_neg (by cases stream with
      | nil => exact absurd rfl h2
      | cons t ts => exact Bool.false_ne_true)]
    rw [hmiss]
  · unfold missState
    simp only [decide_eq_false_iff_not]
    omega
  · intro lines i a b hnone hp hn
    unfold interpLine
    rw [hnone, hp, hn]

/-- Witness for C7 (amended) at a concrete non-sync stream and the initial
decoder state. -/
theorem syncLost_step_witness :
    decodeLinesAux (0 + 1) 0 [⟨1500, 297 / 2⟩] initState
        = decodeLinesAux 0 (0 + 1)
            (dropDuration nominalLinePeriod [⟨1500, 297 / 2⟩]) (missState initState) ∧
    (missState initState).aborted = false ∧
    (missState initState).acc = initState.acc ++ [none] ∧
    (missState initState).complete = false ∧
    (∀ lines i a b, lines.getD i none = none →
      prevSynced lines i = some a → nextSynced lines i = some b →
      interpLine lines i = avgLine i a b) :=
  syncLost_step 0 0 [⟨1500, 297 / 2⟩] initState rfl (by simp)
    (by
      show (if syncSearchWindow < 0 then none
        else if toneMatches ⟨1500, 297 / 2⟩ syncTone then some [⟨1500, 297 / 2⟩]
        else findSyncAux [] (syncSearchWindow - (297 / 2 : ℚ))) = none
      rw [if_neg (by norm_num [syncSearchWindow, nominalLinePeriod]),
        if_neg (by norm_num [toneMatches, syncTone])]
      rfl)
    (by norm_num [initState, abortThreshold])

/-- Counterexample to C7 as stated: at a decoder state with seven consecutive
missed lines (reachable by seven preceding sync-free line periods), the next
line whose sync pulse is not found within the bounded search window makes the
decoder enter ABORTED — it stops instead of continuing to mark lines missing
and advancing one line period per line, so "decode does not abort" fails for
that line. -/
theorem syncLost_step_cex :
    findSyncAux [⟨1500, 297 / 2⟩] syncSearchWindow = none ∧
    (decodeLinesAux 240 0 [⟨1500, 297 / 2⟩] ⟨[], 0, 7, false, false⟩).aborted = true ∧
    (decodeLinesAux 240 0 [⟨1500, 297 / 2⟩] ⟨[], 0, 7, false, false⟩).acc = [none] := by
  have hfs : findSyncAux [⟨1500, 297 / 2⟩] syncSearchWindow = none := by
    show (if syncSearchWindow < 0 then none
      else if toneMatches ⟨1500, 297 / 2⟩ syncTone then some [⟨1500, 297 / 2⟩]
      else findSyncAux [] (syncSearchWindow - (297 / 2 : ℚ))) = none
    rw [if_neg (by norm_num [syncSearchWindow, nominalLinePeriod]),
      if_neg (by norm_num [toneMatches, syncTone])]
    rfl
  have habort : (missState ⟨[], 0, 7, false, false⟩).aborted = true := rfl
  have hstep : decodeLinesAux 240 0 [⟨1500, 297 / 2⟩] ⟨[], 0, 7, false, false⟩
      = decodeLinesAux 239 1
          (dropDuration nominalLinePeriod [⟨1500, 297 / 2⟩])
          (missState ⟨[], 0, 7, false, false⟩) := by
    rw [show decodeLinesAux 240 0 [⟨1500, 297 / 2⟩] ⟨[], 0, 7, false, false⟩
        = if (⟨[], 0, 7, false, false⟩ : LoopState).aborted
            then (⟨[], 0, 7, false, false⟩ : LoopState)
          else if ([⟨1500, 297 / 2⟩] : List Tone).isEmpty then ⟨[], 0, 7, false, true⟩
          else match findSyncAux [⟨1500, 297 / 2⟩] syncSearchWindow with
            | some suffix =>
              match parseLine 0 suffix with
              | some (sl, rest) =>
                decodeLinesAux 239 1 rest ⟨[] ++ [some sl], 0 + 1, 0, false, false⟩
              | none =>
                decodeLinesAux 239 1 (dropDuration nominalLinePeriod [⟨1500, 297 / 2⟩])
                  (missState ⟨[], 0, 7, false, false⟩)
            | none =>
              decodeLinesAux 239 1 (dropDuration nominalLinePeriod [⟨1500, 297 / 2⟩])
                (missState ⟨[], 0, 7, false, false⟩)
      from rfl]
    rw [if_neg Bool.false_ne_true, if_neg (by simp), hfs]
  rw [hstep, decodeLinesAux_of_aborted _ _ _ _ habort]
  exact ⟨hfs, habort, rfl⟩

lemma clamp255_nonpos (z : ℤ) (h : z ≤ 0) : clamp255 z = 0 := by
  unfold clamp255
  omega

lemma clamp255_ge (z : ℤ) (h : 255 ≤ z) : clamp255 z = 255 := by
  unfold clamp255
  omega

/-- Quantization moves a value by at most 1/2 whenever the value lies in the
representable band `[-1/2, 255 + 1/2]`. -/
lemma quant_close (q : ℚ) (h0 : -(1 / 2) ≤ q) (h1 : q ≤ 255 + 1 / 2) :
    |(quant q : ℚ) - q| ≤ 1 / 2 := by
  have habs := abs_sub_round q
  rw [abs_le] at habs ⊢
  obtain ⟨ha1, ha2⟩ := habs
  rcases lt_trichotomy (round q) 0 with hr | hr | hr
  · have hz : quant q = 0 := clamp255_nonpos _ (by omega)
    have hrq : ((round q : ℤ) : ℚ) ≤ -1 := by exact_mod_cast (by omega : round q ≤ -1)
    constructor <;> (rw [hz]; push_cast; linarith)
  · have hz : quant q = 0 := clamp255_nonpos _ (by omega)
    have hrq : ((round q : ℤ) : ℚ) = 0 := by exact_mod_cast hr
    constructor <;> (rw [hz]; push_cast; linarith)
  · rcases le_or_lt (round q) 255 with hle | hgt
    · have hz : (quant q : ℤ) = round q := clamp255_of_mem _ (by omega) hle
      have hzq : (quant q : ℚ) = ((round q : ℤ) : ℚ) := by exact_mod_cast hz
      constructor <;> (rw [hzq]; linarith)
    · have hz : quant q = 255 := clamp255_ge _ (by omega)
      have hrq : (256 : ℚ) ≤ ((round q : ℤ) : ℚ) := by
        exact_mod_cast (by omega : (256 : ℤ) ≤ round q)
      constructor <;> (rw [hz]; push_cast; linarith)

/-- Quantizing a value within 7/4 of a byte target lands within 2 of it. -/
lemma quant_recon_close (m : ℕ) (hm : m ≤ 255) (q : ℚ) (hq : |q - (m : ℚ)| ≤ 7 / 4) :
    ((quant q : ℤ) - (m : ℤ)).natAbs ≤ 2 := by
  have habs := abs_sub_round q
  rw [abs_le] at habs hq
  obtain ⟨h1, h2⟩ := habs
  obtain ⟨h3, h4⟩ := hq
  have hint1 : (round q : ℤ) - (m : ℤ) < 3 := by
    have hc : (((round q : ℤ) - (m : ℤ) : ℤ) : ℚ) < 3 := by push_cast; linarith
    exact_mod_cast hc
  have hint2 : (-3 : ℤ) < (round q : ℤ) - (m : ℤ) := by
    have hc : (-3 : ℚ) < (((round q : ℤ) - (m : ℤ) : ℤ) : ℚ) := by push_cast; linarith
    exact_mod_cast hc
  have hmz : (m : ℤ) ≤ 255 := by exact_mod_cast hm
  unfold quant clamp255
  omega

lemma channel_cast_bounds (p : RGB) (hr : p.r ≤ 255) (hg : p.g ≤ 255) (hb : p.b ≤ 255) :
    (0 : ℚ) ≤ (p.r : ℚ) ∧ (p.r : ℚ) ≤ 255 ∧ (0 : ℚ) ≤ (p.g : ℚ) ∧ (p.g : ℚ) ≤ 255
      ∧ (0 : ℚ) ≤ (p.b : ℚ) ∧ (p.b : ℚ) ≤ 255 :=
  ⟨by positivity, by exact_mod_cast hr, by positivity, by exact_mod_cast hg,
   by positivity, by exact_mod_cast hb⟩

lemma lumaQ_mem (p : RGB) (hr : p.r ≤ 255) (hg : p.g ≤ 255) (hb : p.b ≤ 255) :
    0 ≤ lumaQ p ∧ lumaQ p ≤ 255 := by
  obtain ⟨h1, h2, h3, h4, h5, h6⟩ := channel_cast_bounds p hr hg hb
  have hform : lumaQ p
      = (299 * (p.r : ℚ) + 587 * (p.g : ℚ) + 114 * (p.b : ℚ)) * (1 / 1000) := by
    unfold lumaQ
    ring
  rw [hform]
  have hlb : (0 : ℚ) ≤ 299 * (p.r : ℚ) + 587 * (p.g : ℚ) + 114 * (p.b : ℚ) := by linarith
  have hub : 299 * (p.r : ℚ) + 587 * (p.g : ℚ) + 114 * (p.b : ℚ) ≤ 255000 := by linarith
  have hmul1 := mul_le_mul_of_nonneg_right hlb (by norm_num : (0 : ℚ) ≤ 1 / 1000)
  have hmul2 := mul_le_mul_of_nonneg_right hub (by norm_num : (0 : ℚ) ≤ 1 / 1000)
  constructor <;> linarith

lemma crQ_mem (p : RGB) (hr : p.r ≤ 255) (hg : p.g ≤ 255) (hb : p.b ≤ 255) :
    -(1 / 2) ≤ crQ p ∧ crQ p ≤ 255 + 1 / 2 := by
  obtain ⟨h1, h2, h3, h4, h5, h6⟩ := channel_cast_bounds p hr hg hb
  have hform : crQ p
      = 128 + (701 * (p.r : ℚ) - 587 * (p.g : ℚ) - 114 * (p.b : ℚ)) * (1 / 1402) := by
    unfold crQ lumaQ
    ring
  rw [hform]
  have hlb : (-178755 : ℚ) ≤ 701 * (p.r : ℚ) - 587 * (p.g : ℚ) - 114 * (p.b : ℚ) := by
    linarith
  have hub : 701 * (p.r : ℚ) - 587 * (p.g : ℚ) - 114 * (p.b : ℚ) ≤ 178755 := by linarith
  have hmul1 := mul_le_mul_of_nonneg_right hlb (by norm_num : (0 : ℚ) ≤ 1 / 1402)
  have hmul2 := mul_le_mul_of_nonneg_right hub (by norm_num : (0 : ℚ) ≤ 1 / 1402)
  constructor <;> linarith

lemma cbQ_mem (p : RGB) (hr : p.r ≤ 255) (hg : p.g ≤ 255) (hb : p.b ≤ 255) :
    -(1 / 2) ≤ cbQ p ∧ cbQ p ≤ 255 + 1 / 2 := by
  obtain ⟨h1, h2, h3, h4, h5, h6⟩ := channel_cast_bounds p hr hg hb
  have hform : cbQ p
      = 128 + (886 * (p.b : ℚ) - 299 * (p.r : ℚ) - 587 * (p.g : ℚ)) * (1 / 1772) := by
    unfold cbQ lumaQ
    ring
  rw [hform]
  have hlb : (-225930 : ℚ) ≤ 886 * (p.b : ℚ) - 299 * (p.r : ℚ) - 587 * (p.g : ℚ) := by
    linarith
  have hub : 886 * (p.b : ℚ) - 299 * (p.r : ℚ) - 587 * (p.g : ℚ) ≤ 225930 := by linarith
  have hmul1 := mul_le_mul_of_nonneg_right hlb (by norm_num : (0 : ℚ) ≤ 1 / 1772)
  have hmul2 := mul_le_mul_of_nonneg_right hub (by norm_num : (0 : ℚ) ≤ 1 / 1772)
  constructor <;> linarith

/-- The per-pixel ±2 bound: converting a pixel to quantized Y/Cr/Cb bytes and
reconstructing RGB moves every channel by at most 2. -/
lemma pixel_bound (p : RGB) (hr : p.r ≤ 255) (hg : p.g ≤ 255) (hb : p.b ≤ 255) :
    (((rgbOfYcc (luma8 p) (cr8 p) (cb8 p)).r : ℤ) - (p.r : ℤ)).natAbs ≤ 2 ∧
    (((rgbOfYcc (luma8 p) (cr8 p) (cb8 p)).g : ℤ) - (p.g : ℤ)).natAbs ≤ 2 ∧
    (((rgbOfYcc (luma8 p) (cr8 p) (cb8 p)).b : ℤ) - (p.b : ℤ)).natAbs ≤ 2 := by
  obtain ⟨hY1, hY2⟩ := lumaQ_mem p hr hg hb
  obtain ⟨hCr1, hCr2⟩ := crQ_mem p hr hg hb
  obtain ⟨hCb1, hCb2⟩ := cbQ_mem p hr hg hb
  have hdY := quant_close (lumaQ p) (by linarith) (by linarith)
  have hdCr := quant_close (crQ p) hCr1 hCr2
  have hdCb := quant_close (cbQ p) hCb1 hCb2
  rw [abs_le] at hdY hdCr hdCb
  obtain ⟨hdY1, hdY2⟩ := hdY
  obtain ⟨hdCr1, hdCr2⟩ := hdCr
  obtain ⟨hdCb1, hdCb2⟩ := hdCb
  refine ⟨?_, ?_, ?_⟩
  · apply quant_recon_close p.r hr
    have hid : reconR (luma8 p) (cr8 p) - (p.r : ℚ)
        = ((quant (lumaQ p) : ℚ) - lumaQ p)
          + ((quant (crQ p) : ℚ) - crQ p) * (701 / 500) := by
      unfold reconR luma8 cr8
      unfold crQ lumaQ
      ring
    rw [abs_le]
    constructor <;> (rw [hid]; linarith)
  · apply quant_recon_close p.g hg
    have hid : reconG (luma8 p) (cr8 p) (cb8 p) - (p.g : ℚ)
        = ((quant (lumaQ p) : ℚ) - lumaQ p)
          - ((quant (crQ p) : ℚ) - crQ p) * (209599 / 293500)
          - ((quant (cbQ p) : ℚ) - cbQ p) * (50502 / 146750) := by
      unfold reconG reconR reconB luma8 cr8 cb8
      unfold crQ cbQ lumaQ
      ring
    rw [abs_le]
    constructor <;> (rw [hid]; linarith)
  · apply quant_recon_close p.b hb
    have hid : reconB (luma8 p) (cb8 p) - (p.b : ℚ)
        = ((quant (lumaQ p) : ℚ) - lumaQ p)
          + ((quant (cbQ p) : ℚ) - cbQ p) * (443 / 250) := by
      unfold reconB luma8 cb8
      unfold cbQ lumaQ
      ring
    rw [abs_le]
    constructor <;> (rw [hid]; linarith)

lemma lumaTones_length (img : Image) (line : ℕ) : (lumaTones img line).length = 320 := by
  unfold lumaTones
  rw [List.length_map, List.length_range]

lemma chromaTones_length (img : Image) (line : ℕ) :
    (chromaTones img line).length = 160 := by
  unfold chromaTones
  rw [List.length_map, List.length_range]

lemma chromaVal_le (img : Image) (line j : ℕ) : chromaVal img line j ≤ 255 := by
  unfold chromaVal
  split_ifs <;> exact quant_le _

lemma lumaTones_getD (img : Image) (line x : ℕ) (hx : x < 320) :
    (lumaTones img line).getD x default
      = ⟨toHz (luma8 (img.pixel x line)), lumaToneDur⟩ := by
  rw [List.getD_eq_getElem _ _ (by rw [lumaTones_length]; exact hx)]
  unfold lumaTones
  simp

lemma chromaTones_getD (img : Image) (line j : ℕ) (hj : j < 160) :
    (chromaTones img line).getD j default
      = ⟨toHz (chromaVal img line j), chromaToneDur⟩ := by
  rw [List.getD_eq_getElem _ _ (by rw [chromaTones_length]; exact hj)]
  unfold chromaTones
  simp

/-- The LineDecoder inverts the LineEncoder on a cleanly positioned stream:
parsing an encoded line consumes exactly that line's tones and recovers every
luma and chroma intensity exactly. -/
lemma parseLine_encodeLine (img : Image) (idx : ℕ) (R : List Tone) :
    ∃ sl, parseLine idx (encodeLine img idx ++ R) = some (sl, R)
      ∧ sl.idx = idx
      ∧ (∀ x, x < 320 → sl.y x = luma8 (img.pixel x idx))
      ∧ (∀ j, j < 160 → sl.chroma j = chromaVal img idx j) := by
  have hsh : encodeLine img idx ++ R
      = syncTone :: porchTone
        :: (lumaTones img idx ++ (sepTone :: (chromaTones img idx ++ R))) := by
    unfold encodeLine
    simp only [List.cons_append, List.append_assoc]
  have hlen : 481 ≤ (lumaTones img idx ++ (sepTone :: (chromaTones img idx ++ R))).length := by
    rw [List.length_append, lumaTones_length, List.length_cons, List.length_append,
      chromaTones_length]
    omega
  have hsep : (lumaTones img idx ++ (sepTone :: (chromaTones img idx ++ R))).getD 320 default
      = sepTone := by
    rw [List.getD_append_right _ _ _ _ (by rw [lumaTones_length])]
    rw [lumaTones_length]
    rfl
  have hcond : toneMatches syncTone syncTone ∧ toneMatches porchTone porchTone
      ∧ 481 ≤ (lumaTones img idx ++ (sepTone :: (chromaTones img idx ++ R))).length
      ∧ toneMatches ((lumaTones img idx
          ++ (sepTone :: (chromaTones img idx ++ R))).getD 320 default) sepTone :=
    ⟨toneMatches_self _ (by norm_num [syncTone]),
     toneMatches_self _ (by norm_num [porchTone]), hlen,
     by rw [hsep]; exact toneMatches_self _ (by norm_num [sepTone])⟩
  have hdrop : (lumaTones img idx ++ (sepTone :: (chromaTones img idx ++ R))).drop 481
      = R := by
    rw [show (481 : ℕ) = (lumaTones img idx).length + 161 from by
      rw [lumaTones_length]]
    rw [List.drop_append]
    show (chromaTones img idx ++ R).drop 160 = R
    rw [show (160 : ℕ) = (chromaTones img idx).length + 0 from by
      rw [chromaTones_length]]
    rw [List.drop_append]
    rfl
  refine ⟨⟨idx,
    fun x => toIntensity (((lumaTones img idx
      ++ (sepTone :: (chromaTones img idx ++ R))).getD x default).freq),
    fun j => toIntensity (((lumaTones img idx
      ++ (sepTone :: (chromaTones img idx ++ R))).getD (321 + j) default).freq),
    idx % 2 == 1⟩, ?_, rfl, ?_, ?_⟩
  · rw [hsh]
    show (if toneMatches syncTone syncTone ∧ toneMatches porchTone porchTone
        ∧ 481 ≤ (lumaTones img idx ++ (sepTone :: (chromaTones img idx ++ R))).length
        ∧ toneMatches ((lumaTones img idx
            ++ (sepTone :: (chromaTones img idx ++ R))).getD 320 default) sepTone
      then some ((⟨idx,
        fun x => toIntensity (((lumaTones img idx
          ++ (sepTone :: (chromaTones img idx ++ R))).getD x default).freq),
        fun j => toIntensity (((lumaTones img idx
          ++ (sepTone :: (chromaTones img idx ++ R))).getD (321 + j) default).freq),
        idx % 2 == 1⟩ : ScanLine),
        (lumaTones img idx ++ (sepTone :: (chromaTones img idx ++ R))).drop 481)
      else none)
      = some ((⟨idx,
        fun x => toIntensity (((lumaTones img idx
          ++ (sepTone :: (chromaTones img idx ++ R))).getD x default).freq),
        fun j => toIntensity (((lumaTones img idx
          ++ (sepTone :: (chromaTones img idx ++ R))).getD (321 + j) default).freq),
        idx % 2 == 1⟩ : ScanLine), R)
    rw [if_pos hcond, hdrop]
  · intro x hx
    show toIntensity (((lumaTones img idx
        ++ (sepTone :: (chromaTones img idx ++ R))).getD x default).freq)
      = luma8 (img.pixel x idx)
    rw [List.getD_append _ _ _ _ (by rw [lumaTones_length]; exact hx),
      lumaTones_getD img idx x hx]
    exact toIntensity_toHz _ (quant_le _)
  · intro j hj
    show toIntensity (((lumaTones img idx
        ++ (sepTone :: (chromaTones img idx ++ R))).getD (321 + j) default).freq)
      = chromaVal img idx j
    rw [List.getD_append_right _ _ _ _ (by rw [lumaTones_length]; omega),
      lumaTones_length,
      show 321 + j - 320 = j + 1 from by omega, List.getD_cons_succ,
      List.getD_append _ _ _ _ (by rw [chromaTones_length]; exact hj),
      chromaTones_getD img idx j hj]
    exact toIntensity_toHz _ (chromaVal_le img idx j)

lemma findSync_at_sync (ts : List Tone) :
    findSyncAux (syncTone :: ts) syncSearchWindow = some (syncTone :: ts) := by
  show (if syncSearchWindow < 0 then none
    else if toneMatches syncTone syncTone then some (syncTone :: ts)
    else findSyncAux ts (syncSearchWindow - syncTone.dur)) = some (syncTone :: ts)
  rw [if_neg (by norm_num [syncSearchWindow, nominalLinePeriod]),
    if_pos (toneMatches_self _ (by norm_num [syncTone]))]

/-- On a cleanly encoded body the decoding loop decodes every line: the
accumulated lines extend by one exactly-recovered scanline per encoded line,
the synced count grows by the line count, the completeness flag is preserved
and the loop never aborts. -/
lemma decode_loop_clean (img : Image) :
    ∀ k idx st, st.aborted = false →
      ∃ tail : List (Option ScanLine),
        tail.length = k ∧
        (∀ m, m < k → ∃ sl, tail.getD m none = some sl
          ∧ (∀ x, x < 320 → sl.y x = luma8 (img.pixel x (idx + m)))
          ∧ (∀ j, j < 160 → sl.chroma j = chromaVal img (idx + m) j)) ∧
        decodeLinesAux k idx ((List.range' idx k).flatMap (encodeLine img)) st
          = ⟨st.acc ++ tail, st.synced + k,
             if k = 0 then st.consecMiss else 0, st.complete, false⟩ := by
  intro k
  induction k with
  | zero =>
    intro idx st h
    refine ⟨[], rfl, by omega, ?_⟩
    obtain ⟨acc, sync, cm, comp, ab⟩ := st
    simp only at h
    subst h
    simp
    rfl
  | succ k ih =>
    intro idx st h
    have hshape : (List.range' idx (k + 1)).flatMap (encodeLine img)
        = encodeLine img idx ++ (List.range' (idx + 1) k).flatMap (encodeLine img) := by
      rw [List.range'_succ]
      simp [List.flatMap_cons]
    have hcons : encodeLine img idx ++ (List.range' (idx + 1) k).flatMap (encodeLine img)
        = syncTone :: (porchTone :: (lumaTones img idx ++ sepTone :: chromaTones img idx)
            ++ (List.range' (idx + 1) k).flatMap (encodeLine img)) := by
      unfold encodeLine
      simp only [List.cons_append]
    obtain ⟨sl, hps, hidx, hy, hc⟩ :=
      parseLine_encodeLine img idx ((List.range' (idx + 1) k).flatMap (encodeLine img))
    obtain ⟨tail, hlen, hfacts, heq⟩ :=
      ih (idx + 1) ⟨st.acc ++ [some sl], st.synced + 1, 0, st.complete, false⟩ rfl
    refine ⟨some sl :: tail, by simp [hlen], ?_, ?_⟩
    · intro m hm
      cases m with
      | zero =>
        refine ⟨sl, List.getD_cons_zero, ?_, ?_⟩
        · intro x hx
          rw [hy x hx]
          rfl
        · intro j hj
          rw [hc j hj]
          rfl
      | succ m =>
        obtain ⟨sl2, hget, hy2, hc2⟩ := hfacts m (by omega)
        refine ⟨sl2, by rw [List.getD_cons_succ]; exact hget, ?_, ?_⟩
        · intro x hx
          rw [hy2 x hx, show idx + 1 + m = idx + (m + 1) from by omega]
        · intro j hj
          rw [hc2 j hj, show idx + 1 + m = idx + (m + 1) from by omega]
    · rw [show decodeLinesAux (k + 1) idx
          ((List.range' idx (k + 1)).flatMap (encodeLine img)) st
        = if st.aborted then st
          else if ((List.range' idx (k + 1)).flatMap (encodeLine img)).isEmpty then
            ⟨st.acc, st.synced, st.consecMiss, false, true⟩
          else match findSyncAux ((List.range' idx (k + 1)).flatMap (encodeLine img))
              syncSearchWindow with
            | some suffix =>
              match parseLine idx suffix with
              | some (sl, rest) =>
                decodeLinesAux k (idx + 1) rest
                  ⟨st.acc ++ [some sl], st.synced + 1, 0, st.complete, false⟩
              | none =>
                decodeLinesAux k (idx + 1)
                  (dropDuration nominalLinePeriod
                    ((List.range' idx (k + 1)).flatMap (encodeLine img))) (missState st)
            | none =>
              decodeLinesAux k (idx + 1)
                (dropDuration nominalLinePeriod
                  ((List.range' idx (k + 1)).flatMap (encodeLine img))) (missState st)
        from rfl]
      rw [if_neg (by rw [h]; exact Bool.false_ne_true)]
      rw [if_neg (by rw [hshape, hcons]; simp)]
      have hfs2 : findSyncAux ((List.range' idx (k + 1)).flatMap (encodeLine img))
            syncSearchWindow
          = some ((List.range' idx (k + 1)).flatMap (encodeLine img)) := by
        rw [hshape, hcons]
        rw [findSync_at_sync]
      have hps2 : parseLine idx ((List.range' idx (k + 1)).flatMap (encodeLine img))
          = some (sl, (List.range' (idx + 1) k).flatMap (encodeLine img)) := by
        rw [hshape]
        exact hps
      simp only [hfs2, hps2]
      rw [heq]
      have hsync : st.synced + 1 + k = st.synced + (k + 1) := by omega
      rw [hsync]
      simp only [List.append_assoc, List.singleton_append]
      rw [ite_self, if_neg (Nat.succ_ne_zero k)]

lemma interpLine_present (lines : List (Option ScanLine)) (i : ℕ) (sl : ScanLine)
    (h : lines.getD i none = some sl) : interpLine lines i = sl := by
  unfold interpLine
  rw [h]

lemma encodeVIS_shape (code : ℕ) (rest : List Tone) :
    encodeVIS code ++ rest
      = visLeaderTone :: (visBreakTone :: visLeaderTone :: visStartTone ::
          ((visBits code).map visBitTone
            ++ visBitTone (parityBit (visBits code)) :: visStopTone :: rest)) := by
  unfold encodeVIS
  simp only [List.cons_append, List.nil_append, List.append_assoc]

/-- The complete noise-free round trip, factored per pixel: decoding an
encoded image succeeds with a complete 320×240 frame whose pixel `(x, y)` is
the YCrCb reconstruction from the pixel's own quantized luma and the
chroma-donor pair's subsampled chroma bytes. -/
lemma roundtrip_formula (img : Image) :
    ∃ res, decode (encodeTones img) = Except.ok res ∧
      res.image.width = 320 ∧ res.image.height = 240 ∧ res.complete = true ∧
      ∀ x y, x < 320 → y < 240 →
        res.image.pixel x y
          = rgbOfYcc (luma8 (img.pixel x y))
              (chromaVal img (2 * (y / 2) + 1) (x / 2))
              (chromaVal img (2 * (y / 2)) (x / 2)) := by
  have hvis : decodeVIS (visLeaderTone :: (visBreakTone :: visLeaderTone :: visStartTone ::
      ((visBits visRobot36).map visBitTone
        ++ visBitTone (parityBit (visBits visRobot36)) :: visStopTone ::
          (List.range 240).flatMap (encodeLine img))))
      = Except.ok (visRobot36, (List.range 240).flatMap (encodeLine img)) := by
    rw [← encodeVIS_shape]
    exact decodeVIS_encodeVIS visRobot36 (by norm_num [visRobot36])
      ((List.range 240).flatMap (encodeLine img))
  have hdec : decode (encodeTones img)
      = Except.ok (finalizeFrame (decodeLinesAux 240 0
          ((List.range 240).flatMap (encodeLine img)) initState)) := by
    unfold decode encodeTones
    rw [encodeVIS_shape]
    simp only [findHeader_cons_leader, hvis]
  obtain ⟨tail, hlen, hfacts, heq⟩ := decode_loop_clean img 240 0 initState rfl
  have hrange : (List.range 240).flatMap (encodeLine img)
      = (List.range' 0 240).flatMap (encodeLine img) := by
    rw [List.range_eq_range']
  have heq2 : decodeLinesAux 240 0 ((List.range 240).flatMap (encodeLine img)) initState
      = ⟨tail, 240, 0, true, false⟩ := by
    rw [hrange, heq]
    simp [initState]
  refine ⟨finalizeFrame (decodeLinesAux 240 0
      ((List.range 240).flatMap (encodeLine img)) initState), hdec, rfl, rfl, ?_, ?_⟩
  · rw [heq2]
    unfold finalizeFrame
    simp [hlen]
  · intro x y hx hy
    rw [heq2]
    unfold finalizeFrame
    have hpad : tail ++ List.replicate (240 - tail.length) none = tail := by
      rw [hlen]
      simp
    show (assembleImage (tail ++ List.replicate (240 - tail.length) none)).pixel x y = _
    rw [hpad]
    obtain ⟨slY, hgY, hyY, -⟩ := hfacts y (by omega)
    obtain ⟨slCr, hgCr, -, hcCr⟩ := hfacts (2 * (y / 2) + 1) (by omega)
    obtain ⟨slCb, hgCb, -, hcCb⟩ := hfacts (2 * (y / 2)) (by omega)
    show rgbOfYcc ((interpLine tail y).y x)
        ((interpLine tail (2 * (y / 2) + 1)).chroma (x / 2))
        ((interpLine tail (2 * (y / 2))).chroma (x / 2)) = _
    rw [interpLine_present tail y slY hgY,
      interpLine_present tail (2 * (y / 2) + 1) slCr hgCr,
      interpLine_present tail (2 * (y / 2)) slCb hgCb]
    rw [hyY x hx, hcCr (x / 2) (by omega), hcCb (x / 2) (by omega)]
    rw [Nat.zero_add, Nat.zero_add, Nat.zero_add]

/-- **C1 (amended).** For every valid 320×240 RGB source image that is
constant on each 2×2 chroma-sharing block (two adjacent columns of a line
pair — the granularity at which Robot36 subsamples and shares chroma),
applying encode and then decode to the resulting noise-free tone stream
yields a complete image of the same dimensions in which every pixel's every
channel differs from the source image's corresponding channel by at most 2. -/
theorem roundtrip_within_two (img : Image)
    (hw : img.width = 320) (hh : img.height = 240)
    (hv : ∀ x y, x < 320 → y < 240 →
      (img.pixel x y).r ≤ 255 ∧ (img.pixel x y).g ≤ 255 ∧ (img.pixel x y).b ≤ 255)
    (hblock : ∀ x y, x < 320 → y < 240 →
      img.pixel x y = img.pixel (2 * (x / 2)) (2 * (y / 2))) :
    ∃ ts res, encode img = Except.ok ts ∧ decode ts = Except.ok res ∧
      res.image.width = img.width ∧ res.image.height = img.height ∧
      res.complete = true ∧
      ∀ x y, x < 320 → y < 240 →
        (((res.image.pixel x y).r : ℤ) - ((img.pixel x y).r : ℤ)).natAbs ≤ 2 ∧
        (((res.image.pixel x y).g : ℤ) - ((img.pixel x y).g : ℤ)).natAbs ≤ 2 ∧
        (((res.image.pixel x y).b : ℤ) - ((img.pixel x y).b : ℤ)).natAbs ≤ 2 := by
  obtain ⟨res, hres, hw2, hh2, hcomp, hpix⟩ := roundtrip_formula img
  refine ⟨encodeTones img, res, ?_, hres, by rw [hw2, hw], by rw [hh2, hh], hcomp, ?_⟩
  · unfold encode
    rw [if_pos ⟨hw, hh⟩]
  · intro x y hx hy
    have hx2 : 2 * (x / 2) < 320 := by omega
    have hx21 : 2 * (x / 2) + 1 < 320 := by omega
    have hy2 : 2 * (y / 2) < 240 := by omega
    have hy21 : 2 * (y / 2) + 1 < 240 := by omega
    have hp1 : img.pixel (2 * (x / 2)) (2 * (y / 2) + 1)
        = img.pixel (2 * (x / 2)) (2 * (y / 2)) := by
      rw [hblock (2 * (x / 2)) (2 * (y / 2) + 1) hx2 hy21,
        show (2 * (x / 2)) / 2 = x / 2 from by omega,
        show (2 * (y / 2) + 1) / 2 = y / 2 from by omega]
    have hp2 : img.pixel (2 * (x / 2) + 1) (2 * (y / 2) + 1)
        = img.pixel (2 * (x / 2)) (2 * (y / 2)) := by
      rw [hblock (2 * (x / 2) + 1) (2 * (y / 2) + 1) hx21 hy21,
        show (2 * (x / 2) + 1) / 2 = x / 2 from by omega,
        show (2 * (y / 2) + 1) / 2 = y / 2 from by omega]
    have hp4 : img.pixel (2 * (x / 2) + 1) (2 * (y / 2))
        = img.pixel (2 * (x / 2)) (2 * (y / 2)) := by
      rw [hblock (2 * (x / 2) + 1) (2 * (y / 2)) hx21 hy2,
        show (2 * (x / 2) + 1) / 2 = x / 2 from by omega,
        show (2 * (y / 2)) / 2 = y / 2 from by omega]
    have hcr : chromaVal img (2 * (y / 2) + 1) (x / 2)
        = cr8 (img.pixel (2 * (x / 2)) (2 * (y / 2))) := by
      unfold chromaVal
      rw [if_pos (by omega : (2 * (y / 2) + 1) % 2 = 1)]
      rw [hp1, hp2]
      rw [show (crQ (img.pixel (2 * (x / 2)) (2 * (y / 2)))
            + crQ (img.pixel (2 * (x / 2)) (2 * (y / 2)))) / 2
          = crQ (img.pixel (2 * (x / 2)) (2 * (y / 2))) from by ring]
      rfl
    have hcb : chromaVal img (2 * (y / 2)) (x / 2)
        = cb8 (img.pixel (2 * (x / 2)) (2 * (y / 2))) := by
      unfold chromaVal
      rw [if_neg (by omega : ¬(2 * (y / 2)) % 2 = 1)]
      rw [hp4]
      rw [show (cbQ (img.pixel (2 * (x / 2)) (2 * (y / 2)))
            + cbQ (img.pixel (2 * (x / 2)) (2 * (y / 2)))) / 2
          = cbQ (img.pixel (2 * (x / 2)) (2 * (y / 2))) from by ring]
      rfl
    have hrepxy : img.pixel x y = img.pixel (2 * (x / 2)) (2 * (y / 2)) :=
      hblock x y hx hy
    rw [hpix x y hx hy, hcr, hcb, hrepxy]
    obtain ⟨h1, h2, h3⟩ := hv (2 * (x / 2)) (2 * (y / 2)) hx2 hy2
    exact pixel_bound (img.pixel (2 * (x / 2)) (2 * (y / 2))) h1 h2 h3

/-- Witness for C1 (amended) on the spec's concrete scenario: the uniform
gray 320×240 image round-trips within ±2 on every channel of every pixel. -/
theorem roundtrip_within_two_witness :
    ∃ ts res, encode grayImage = Except.ok ts ∧ decode ts = Except.ok res ∧
      res.image.width = grayImage.width ∧ res.image.height = grayImage.height ∧
      res.complete = true ∧
      ∀ x y, x < 320 → y < 240 →
        (((res.image.pixel x y).r : ℤ) - ((grayImage.pixel x y).r : ℤ)).natAbs ≤ 2 ∧
        (((res.image.pixel x y).g : ℤ) - ((grayImage.pixel x y).g : ℤ)).natAbs ≤ 2 ∧
        (((res.image.pixel x y).b : ℤ) - ((grayImage.pixel x y).b : ℤ)).natAbs ≤ 2 :=
  roundtrip_within_two grayImage rfl rfl
    (fun _ _ _ _ => ⟨by norm_num [grayImage], by norm_num [grayImage],
      by norm_num [grayImage]⟩)
    (fun _ _ _ _ => rfl)

/-- Counterexample to C1 as stated: the claim quantifies over every 320×240
RGB source image, but Robot36's 2:1 chroma subsampling shares a Cr/Cb sample
pair across each pixel pair and line pair, so an image whose chroma changes
inside a sharing block cannot round-trip within ±2.  For the alternating
red/blue column image the decoded pixel (0, 0) has red channel 150 against a
source value of 255. -/
theorem roundtrip_cex :
    ¬(∀ img : Image, img.width = 320 → img.height = 240 →
      (∀ x y, x < 320 → y < 240 →
        (img.pixel x y).r ≤ 255 ∧ (img.pixel x y).g ≤ 255 ∧ (img.pixel x y).b ≤ 255) →
      ∃ ts res, encode img = Except.ok ts ∧ decode ts = Except.ok res ∧
        ∀ x y, x < 320 → y < 240 →
          (((res.image.pixel x y).r : ℤ) - ((img.pixel x y).r : ℤ)).natAbs ≤ 2) := by
  intro hclaim
  have hv : ∀ x y, x < 320 → y < 240 →
      (cexImage.pixel x y).r ≤ 255 ∧ (cexImage.pixel x y).g ≤ 255
        ∧ (cexImage.pixel x y).b ≤ 255 := by
    intro x y _ _
    by_cases hx : x % 2 = 0
    · rw [show cexImage.pixel x y = ⟨255, 0, 0⟩ from by
        show (if x % 2 = 0 then (⟨255, 0, 0⟩ : RGB) else ⟨0, 0, 255⟩) = _
        rw [if_pos hx]]
      exact ⟨by norm_num, by norm_num, by norm_num⟩
    · rw [show cexImage.pixel x y = ⟨0, 0, 255⟩ from by
        show (if x % 2 = 0 then (⟨255, 0, 0⟩ : RGB) else ⟨0, 0, 255⟩) = _
        rw [if_neg hx]]
      exact ⟨by norm_num, by norm_num, by norm_num⟩
  obtain ⟨ts, res, hts, hres, hpx⟩ := hclaim cexImage rfl rfl hv
  have he : encode cexImage = Except.ok (encodeTones cexImage) := by
    unfold encode
    rw [if_pos ⟨rfl, rfl⟩]
  rw [he] at hts
  have hts2 : encodeTones cexImage = ts := Except.ok.inj hts
  rw [← hts2] at hres
  obtain ⟨res2, hres2, -, -, -, hform⟩ := roundtrip_formula cexImage
  rw [hres] at hres2
  have hreq : res = res2 := Except.ok.inj hres2
  have hp := hpx 0 0 (by norm_num) (by norm_num)
  rw [hreq, hform 0 0 (by norm_num) (by norm_num)] at hp
  simp only [show (2 * (0 / 2 : ℕ) + 1) = 1 from rfl,
    show ((0 : ℕ) / 2) = 0 from rfl, show (2 * (0 / 2 : ℕ)) = 0 from rfl] at hp
  have hluma : luma8 (cexImage.pixel 0 0) = 76 := by
    show luma8 ⟨255, 0, 0⟩ = 76
    unfold luma8 quant lumaQ clamp255
    norm_num [round_eq]
    rfl
  have hcrv : chromaVal cexImage 1 0 = 181 := by
    unfold chromaVal
    rw [if_pos (by norm_num)]
    show quant ((crQ (cexImage.pixel 0 1) + crQ (cexImage.pixel 1 1)) / 2) = 181
    show quant ((crQ ⟨255, 0, 0⟩ + crQ ⟨0, 0, 255⟩) / 2) = 181
    unfold quant crQ lumaQ clamp255
    norm_num [round_eq]
    rfl
  have hval : (rgbOfYcc (luma8 (cexImage.pixel 0 0)) (chromaVal cexImage 1 0)
      (chromaVal cexImage 0 0)).r = 150 := by
    rw [hluma, hcrv]
    show quant (reconR 76 181) = 150
    unfold quant reconR clamp255
    norm_num [round_eq]
    rfl
  rw [hval, show (cexImage.pixel 0 0).r = 255 from rfl] at hp
  omega

end SSTV
